import Mathlib

/-!
# Verification of the arroyo query-to-dataflow planner

A shallow embedding of the planner path of the arroyo stream-processing
engine: the `ArroyoSchema` model (`arroyo-rpc/src/df.rs`) and the
query-to-dataflow planner (`arroyo-df/src/plan_graph.rs`), together with
proofs of the specified properties.

Modelling conventions:
* Rust machine integers are `Nat` with explicit `% 2 ^ w` at the casts that
  can wrap; `u128 -> i64` casts use two's-complement reinterpretation.
* Fallible Rust code (`Result`, `?`, `bail!`, `anyhow!`) is `Except PlanError`;
  a Rust `panic!` / `.expect` / `.unwrap` is modelled as the distinguished
  `PlanError.panicked` outcome, which is not a caller-visible error value.
* Protobuf-encoded configurations (`encode_to_vec`) are kept structurally;
  prost encoding is injective per message type, so equality of the structured
  values models equality of the encoded bytes.
* serde_json serialization of arrow schemas is kept structurally for the same
  reason.
-/

/-! ## Arrow data model -/

/-- Arrow column data types; only the timestamp type has behavioural
relevance to the planner, the rest are carried opaquely. -/
inductive ArrowType where
  | timestampNanosecond
  | int64
  | utf8
  | otherType (tag : String)
deriving DecidableEq, Repr

/-- An arrow field: name, data type, nullability. -/
structure ArrowField where
  name : String
  dtype : ArrowType
  nullable : Bool
deriving DecidableEq, Repr

/-- An arrow schema: an ordered list of fields. -/
structure ArrowSchema where
  fields : List ArrowField
deriving DecidableEq, Repr

/-- `TIMESTAMP_FIELD` from arroyo-rpc. -/
def TIMESTAMP_FIELD : String := "_timestamp"

/-- `Schema::column_with_name`: index of the first field with the given
name, if any. -/
def ArrowSchema.column_with_name (s : ArrowSchema) (name : String) : Option Nat :=
  s.fields.findIdx? (fun f => f.name == name)

/-! ## ArroyoSchema (arroyo-rpc/src/df.rs) -/

/-- `ArroyoSchema`: an arrow schema plus the timestamp column index and the
ordered key column indices. -/
structure ArroyoSchema where
  schema : ArrowSchema
  timestamp_index : Nat
  key_indices : List Nat
deriving DecidableEq, Repr

/-- `ArroyoSchema::new`: stores the three components with no validation. -/
def ArroyoSchema.new (schema : ArrowSchema) (timestamp_index : Nat)
    (key_indices : List Nat) : ArroyoSchema :=
  { schema := schema, timestamp_index := timestamp_index, key_indices := key_indices }

/-- `ArroyoSchema::from_schema_keys`: locates `_timestamp` by name; its
absence is an error. -/
def ArroyoSchema.from_schema_keys (schema : ArrowSchema) (key_indices : List Nat) :
    Except String ArroyoSchema :=
  match schema.column_with_name TIMESTAMP_FIELD with
  | none => .error ("no " ++ TIMESTAMP_FIELD ++ " field in schema")
  | some timestamp_index =>
    .ok { schema := schema, timestamp_index := timestamp_index, key_indices := key_indices }

/-- The `_timestamp` field appended by `from_fields`. -/
def timestampArrowField : ArrowField :=
  { name := TIMESTAMP_FIELD, dtype := .timestampNanosecond, nullable := false }

/-- `ArroyoSchema::from_fields`: appends `_timestamp` when no field of that
name is present, then delegates to `from_schema_keys` with no keys (whose
`.unwrap()` cannot fail after the append; the junk default models the
unreachable panic branch). -/
def ArroyoSchema.from_fields (fields : List ArrowField) : ArroyoSchema :=
  let fields :=
    if fields.any (fun f => f.name == TIMESTAMP_FIELD) then fields
    else fields ++ [timestampArrowField]
  match ArroyoSchema.from_schema_keys { fields := fields } [] with
  | .ok s => s
  | .error _ => { schema := { fields := fields }, timestamp_index := 0, key_indices := [] }

/-- Wire form `grpc::ArroyoSchema` / `api::ArroyoSchema`:
`arrow_schema` is a JSON-serialized arrow schema (kept structurally),
`timestamp_index : u32`, `key_indices : repeated u32`. -/
structure GrpcArroyoSchema where
  arrow_schema : ArrowSchema
  timestamp_index : Nat
  key_indices : List Nat
deriving DecidableEq, Repr

/-- `TryFrom<grpc::ArroyoSchema> for ArroyoSchema`: parses the JSON schema
and casts the indices; performs no validation of the schema contents. -/
def ArroyoSchema.try_from_grpc (p : GrpcArroyoSchema) : Except String ArroyoSchema :=
  .ok { schema := p.arrow_schema
        timestamp_index := p.timestamp_index
        key_indices := p.key_indices }

/-- `TryFrom<ArroyoSchema> for grpc::ArroyoSchema`: serializes the schema
and casts the indices (the planner only produces indices below `2 ^ 32`). -/
def ArroyoSchema.to_grpc (s : ArroyoSchema) : Except String GrpcArroyoSchema :=
  .ok { arrow_schema := s.schema
        timestamp_index := s.timestamp_index % 2 ^ 32
        key_indices := s.key_indices.map (fun i => i % 2 ^ 32) }

/-! ## Durations and their Debug rendering -/

/-- `std::time::Duration`, modelled by its total length in nanoseconds
(`as_nanos` is exact on `u128`). -/
structure Duration where
  nanos : Nat
deriving DecidableEq, Repr

/-- Two's-complement reinterpretation of a `u128` value truncated to `i64`
(the `as i64` cast). -/
def i64_of_u128 (n : Nat) : Int :=
  let r : Nat := n % 2 ^ 64
  if r < 2 ^ 63 then (r : Int) else (r : Int) - 2 ^ 64

/-- Left-pad a decimal rendering with zeros to `width` digits, then strip
trailing zeros: the fractional part of `Duration`'s Debug format. -/
def fractionDigits (frac : Nat) (width : Nat) : String :=
  let digits := Nat.repr frac
  let padded := String.mk (List.replicate (width - digits.length) '0') ++ digits
  String.mk (padded.data.reverse.dropWhile (fun c => c == '0')).reverse

/-- One branch of `Duration`'s Debug format: integer part, fractional part
(trailing zeros trimmed), unit. -/
def durationPart (whole frac width : Nat) (unit : String) : String :=
  if frac == 0 then Nat.repr whole ++ unit
  else Nat.repr whole ++ "." ++ fractionDigits frac width ++ unit

/-- The Debug rendering of a `Duration` (`format!` with the standard library
Debug implementation): seconds, milliseconds, microseconds or nanoseconds
with a trimmed fractional part. -/
def durationDebug (d : Duration) : String :=
  let n := d.nanos
  if n >= 1000000000 then durationPart (n / 1000000000) (n % 1000000000) 9 "s"
  else if n >= 1000000 then durationPart (n / 1000000) (n % 1000000) 6 "ms"
  else if n >= 1000 then durationPart (n / 1000) (n % 1000) 3 "µs"
  else Nat.repr n ++ "ns"

/-! ## Window types (arroyo-datastream `WindowType`) -/

/-- `WindowType` from arroyo-datastream. -/
inductive WindowType where
  | tumbling (width : Duration)
  | sliding (width : Duration) (slide : Duration)
  | instant
  | session (gap : Duration)
deriving DecidableEq, Repr

/-! ## Serialized physical plans (datafusion-proto `PhysicalPlanNode`) -/

/-- `AggregateMode` from datafusion-proto. -/
inductive AggregateMode where
  | Partial_
  | Final
  | FinalPartitioned
  | Single
  | SinglePartitioned
deriving DecidableEq, Repr

/-- `PhysicalPlanNode`, flattened over its `Option<PhysicalPlanType>`:
`aggregate` is `physical_plan_type = Some(Aggregate(AggregateExecNode
-x7b mode, input, .. x7d-))` with `outSchema` abstracting the output schema the
node reports once decoded back to an `ExecutionPlan`; `memExec` is - modelled
from the spec, the codec for `ArroyoMemExec` is outside the sampled sources -
the serialized placeholder in-memory relation; `otherNode` is any other plan
shape; `emptyNode` is `physical_plan_type = None`. -/
inductive PhysicalPlanNode where
  | aggregate (mode : AggregateMode) (input : Option PhysicalPlanNode)
      (outSchema : ArrowSchema)
  | memExec (table_name : String) (schema : ArrowSchema)
  | otherNode (tag : String) (outSchema : ArrowSchema)
  | emptyNode
deriving Repr

/-- `try_into_physical_plan(..)` followed by `.schema()`: decoding a
serialized plan back to an execution plan and reading its schema; decoding a
node with no plan type fails. -/
def PhysicalPlanNode.schemaOf : PhysicalPlanNode → Except String ArrowSchema
  | .aggregate _ _ outSchema => .ok outSchema
  | .memExec _ schema => .ok schema
  | .otherNode _ outSchema => .ok outSchema
  | .emptyNode => .error "unsupported physical plan node"

/-! ## Physical expressions (the binning function) -/

/-- The scalar values the planner builds: the interval literal of
`date_bin`. -/
inductive ScalarVal where
  | intervalMonthDayNano (months : Int) (days : Int) (nanos : Int)
deriving DecidableEq, Repr

/-- The logical `Expr` shape constructed by `binning_function_proto`. -/
inductive LogicalExpr where
  | literal (v : ScalarVal)
  | column (relation : Option String) (name : String)
  | scalarFunction (fn : String) (args : List LogicalExpr)
deriving Repr

/-- Serialized `PhysicalExprNode`: like the logical expression, with column
references resolved to indices in the input schema. -/
inductive PhysicalExprNode where
  | literal (v : ScalarVal)
  | column (name : String) (index : Nat)
  | scalarFunction (fn : String) (args : List PhysicalExprNode)
deriving Repr

mutual
/-- Modelled from the spec: datafusion's `create_physical_expr` followed by
`PhysicalExprNode::try_from` (both outside the sampled sources) resolves
column references by name against the input schema - failing when a column
is absent - and otherwise preserves the expression structure. -/
def resolvePhysicalExpr (s : ArrowSchema) : LogicalExpr → Except String PhysicalExprNode
  | .literal v => .ok (.literal v)
  | .column _ name =>
    match s.column_with_name name with
    | some i => .ok (.column name i)
    | none => .error ("No field named " ++ name)
  | .scalarFunction fn args => do
    let rargs ← resolvePhysicalExprList s args
    .ok (.scalarFunction fn rargs)

/-- Resolve a list of expression arguments in order. -/
def resolvePhysicalExprList (s : ArrowSchema) : List LogicalExpr → Except String (List PhysicalExprNode)
  | [] => .ok []
  | e :: rest => do
    let r ← resolvePhysicalExpr s e
    let rs ← resolvePhysicalExprList s rest
    .ok (r :: rs)
end

/-! ## Operator configurations (arroyo-rpc grpc api messages) -/

/-- `api::ConnectorOp`: opaque connector operator configuration produced by
the connector layer, with its human description. -/
structure ConnectorOp where
  connector : String
  config : String
  description : String
deriving DecidableEq, Repr

/-- `api::PeriodicWatermark`. -/
structure PeriodicWatermark where
  period_micros : Nat
  max_lateness_micros : Nat
  idle_time_micros : Option Nat
deriving DecidableEq, Repr

/-- `api::ValuePlanOperator`: name plus serialized physical plan. -/
structure ValuePlanOperator where
  name : String
  physical_plan : PhysicalPlanNode
deriving Repr

/-- `api::KeyPlanOperator`: name, serialized physical plan, key columns. -/
structure KeyPlanOperator where
  name : String
  physical_plan : PhysicalPlanNode
  key_fields : List Nat
deriving Repr

/-- `api::TumblingWindowAggregateOperator`. -/
structure TumblingWindowAggregateOperator where
  name : String
  width_micros : Nat
  binning_function : PhysicalExprNode
  window_field_name : String
  window_index : Nat
  input_schema : Option GrpcArroyoSchema
  partial_schema : Option GrpcArroyoSchema
  partial_aggregation_plan : PhysicalPlanNode
  final_aggregation_plan : PhysicalPlanNode
deriving Repr

/-- `operator_config` bytes of a logical node, kept structurally (the code
stores `encode_to_vec()` of one of these messages). -/
inductive OperatorConfig where
  | connectorOp (op : ConnectorOp)
  | watermark (w : PeriodicWatermark)
  | value (v : ValuePlanOperator)
  | key (k : KeyPlanOperator)
  | tumbling (t : TumblingWindowAggregateOperator)
deriving Repr

/-- `OperatorName` from arroyo-datastream (the kinds the planner emits). -/
inductive OperatorName where
  | ConnectorSource
  | Watermark
  | ArrowValue
  | ArrowKey
  | TumblingWindowAggregate
  | ConnectorSink
deriving DecidableEq, Repr

/-- `LogicalNode` from arroyo-datastream. -/
structure LogicalNode where
  operator_id : String
  description : String
  operator_name : OperatorName
  operator_config : OperatorConfig
  parallelism : Nat
deriving Repr

/-- `LogicalEdgeType`: the edge kinds of the output graph. -/
inductive LogicalEdgeType where
  | Forward
  | Shuffle
  | Broadcast
deriving DecidableEq, Repr

/-- `LogicalEdge` from arroyo-datastream: edge kind, projected arrow schema
and optional projection vector. -/
structure LogicalEdge where
  edge_type : LogicalEdgeType
  schema : ArrowSchema
  projection : Option (List Nat)
deriving DecidableEq, Repr

/-- `DataFusionEdge`, the rewriter graph's edge weight; `try_into` converts
it into a `LogicalEdge` by direct correspondence of the fields. -/
structure DataFusionEdge where
  schema : ArrowSchema
  edge_type : LogicalEdgeType
  projection : Option (List Nat)
deriving DecidableEq, Repr

/-- The `TryFrom<&DataFusionEdge> for LogicalEdge` conversion used at edge
rewiring. -/
def DataFusionEdge.toLogicalEdge (e : DataFusionEdge) : LogicalEdge :=
  { edge_type := e.edge_type, schema := e.schema, projection := e.projection }

/-! ## The catalog (ArroyoSchemaProvider / tables) -/

/-- `SqlSource`: connector operator configuration (with description) and the
arrow schema of rows produced by the connector. -/
structure SqlSource where
  config : ConnectorOp
  schema : ArrowSchema
deriving DecidableEq, Repr

/-- `ConnectorTable`: the catalog variant consumed as a source;
`sql_source` is the (fallible) result of `as_sql_source()`. -/
structure ConnectorTable where
  sql_source : Except String SqlSource
deriving Repr

/-- `Table`: tagged catalog variants; only `ConnectorTable` can be used as a
source, the other variants are carried opaquely. -/
inductive Table where
  | ConnectorTable (t : ConnectorTable)
  | OtherTable (tag : String)
deriving Repr

/-! ## The rewriter's plan-extension graph -/

/-- The slice of datafusion `LogicalPlan` the planner inspects: table scans
(with name, projected schema and projection), the aggregate plan rebuilt
around an `AggregateCalculation`, and everything else opaquely with its
schema. -/
inductive DFLogicalPlan where
  | tableScan (table_name : String) (projected_schema : ArrowSchema)
      (projection : Option (List Nat))
  | aggregate (input : DFLogicalPlan) (group_expr : List String)
      (aggr_expr : List String) (schema : ArrowSchema)
  | otherPlan (tag : String) (schema : ArrowSchema)
deriving Repr

/-- `LogicalPlan::schema()` on the modelled slice. -/
def DFLogicalPlan.schema : DFLogicalPlan → ArrowSchema
  | .tableScan _ projected_schema _ => projected_schema
  | .aggregate _ _ _ schema => schema
  | .otherPlan _ schema => schema

/-- `AggregateCalculation`: the fields of the datafusion `Aggregate`
(`aggregate.aggregate`) the planner reads, plus window metadata. -/
structure AggregateCalculation where
  agg_input : DFLogicalPlan
  agg_group_expr : List String
  agg_aggr_expr : List String
  agg_schema : ArrowSchema
  window : WindowType
  key_fields : List Nat
  window_field_name : String
  window_index : Nat
deriving Repr

/-- `LogicalPlan::Aggregate(my_aggregate)`: the plan handed to the physical
sub-planner for an aggregate calculation. -/
def AggregateCalculation.aggregatePlan (a : AggregateCalculation) : DFLogicalPlan :=
  .aggregate a.agg_input a.agg_group_expr a.agg_aggr_expr a.agg_schema

/-- `LogicalPlanExtension`: the closed sum of input node shapes produced by
the query rewriter. -/
inductive LogicalPlanExtension where
  | TableScan (plan : DFLogicalPlan)
  | ValueCalculation (plan : DFLogicalPlan)
  | KeyCalculation (projection : DFLogicalPlan) (key_columns : List Nat)
  | AggregateCalculation (agg : AggregateCalculation)
  | Sink (name : String) (connector_op : ConnectorOp)
deriving Repr

/-- `QueryToGraphVisitor`: the rewriter output graph, as a node arena, an
edge arena `(source, target, weight)` in insertion order, and the node visit
order produced by petgraph's `Topo` iterator. -/
structure QueryToGraphVisitor where
  nodes : List LogicalPlanExtension
  edges : List (Nat × Nat × DataFusionEdge)
  topo_order : List Nat
deriving Repr

/-! ## Errors and outcomes -/

/-- Outcomes of a `plan` call that do not produce a program: `anyhowError`
is a caller-visible `Err` (from `anyhow!` / `bail!` / `?`), `panicked` is a
process panic (from `panic!` / `.expect` / `.unwrap`), which never reaches
the caller as an error value. -/
inductive PlanError where
  | anyhowError (msg : String)
  | panicked (msg : String)
deriving DecidableEq, Repr

/-- Whether a plan outcome is a caller-visible error (as opposed to a
success or a panic). -/
def isCallerVisibleError {α : Type} : Except PlanError α → Bool
  | .error (.anyhowError _) => true
  | _ => false

/-! ## The output graph and program -/

/-- The output `LogicalGraph` (a petgraph `DiGraph`), as a node arena and an
edge arena `(source index, target index, weight)` in insertion order;
`add_node` appends and returns the fresh index, `node_count` is the current
number of nodes. -/
structure ProgramGraph where
  nodes : List LogicalNode
  edges : List (Nat × Nat × LogicalEdge)
deriving Repr

/-- `Graph::node_count`. -/
def ProgramGraph.node_count (g : ProgramGraph) : Nat := g.nodes.length

/-- `Graph::add_node`: appends the node and returns (new graph, its index). -/
def ProgramGraph.add_node (g : ProgramGraph) (n : LogicalNode) : ProgramGraph × Nat :=
  ({ g with nodes := g.nodes ++ [n] }, g.nodes.length)

/-- `Graph::add_edge`. -/
def ProgramGraph.add_edge (g : ProgramGraph) (s t : Nat) (e : LogicalEdge) : ProgramGraph :=
  { g with edges := g.edges ++ [(s, t, e)] }

/-- `LogicalProgram`. -/
structure LogicalProgram where
  graph : ProgramGraph
deriving Repr

/-- `CompiledSql`: the compiled output returned to the caller; `schemas` is
the edge-id-to-ArroyoSchema registry (a HashMap, modelled as an association
list) and `connection_ids` the bound connection ids. -/
structure CompiledSql where
  program : LogicalProgram
  connection_ids : List Nat
  schemas : List (Nat × ArroyoSchema)
deriving Repr

/-! ## The planner -/

/-- The `node_mapping` HashMap (input node index to output node index),
modelled as an association list where `insert` prepends (so later entries
shadow earlier ones) and `get` finds the most recent entry. -/
def mapInsert (m : List (Nat × Nat)) (k v : Nat) : List (Nat × Nat) :=
  (k, v) :: m

/-- HashMap `get` on the association-list model. -/
def mapGet (m : List (Nat × Nat)) (k : Nat) : Option Nat :=
  (m.find? (fun kv => kv.1 == k)).map (fun kv => kv.2)

/-- `Planner`: the catalog (`ArroyoSchemaProvider`, an association list of
named tables) together with the behaviour of the external datafusion
physical sub-planner: `create_physical_plan` is
`DefaultPhysicalPlanner::create_physical_plan` followed by
`PhysicalPlanNode::try_from_physical_plan`, i.e. the serialized physical
tree produced for a logical plan under the planner's session state. -/
structure Planner where
  schema_provider : List (String × Table)
  create_physical_plan : DFLogicalPlan → Except String PhysicalPlanNode

/-- `SchemaProvider::get_table`. -/
def Planner.get_table (p : Planner) (name : String) : Option Table :=
  (p.schema_provider.find? (fun kv => kv.1 == name)).map (fun kv => kv.2)

/-- `Planner::binning_function_proto`: build
`date_bin(IntervalMonthDayNano(0, 0, width as nanos as i64), _timestamp)`
and resolve it against the input schema. -/
def Planner.binning_function_proto (_p : Planner) (duration : Duration)
    (input_schema : ArrowSchema) : Except String PhysicalExprNode :=
  let date_bin : LogicalExpr := .scalarFunction "date_bin" [
    .literal (.intervalMonthDayNano 0 0 (i64_of_u128 duration.nanos)),
    .column none "_timestamp"]
  resolvePhysicalExpr input_schema date_bin

/-- Modelled from the spec: `add_timestamp_field_arrow` (crate::schemas, not
among the sampled sources) extends a schema with a `_timestamp` column
appended. -/
def add_timestamp_field_arrow (schema : ArrowSchema) : ArrowSchema :=
  { fields := schema.fields ++ [timestampArrowField] }

/-- Lift an anyhow-style `Except String` into the planner outcome as a
caller-visible error. -/
def liftAnyhow {α : Type} : Except String α → Except PlanError α
  | .ok a => .ok a
  | .error e => .error (.anyhowError e)

/-- `Planner::tumbling_window_config`: the tumbling-window decomposition.
Mirrors the source statement for statement: destructure the tumbling width;
build the binning expression; wrap the aggregate input schema as an
`ArroyoSchema` with the last column as timestamp and `key_fields` as keys;
require the aggregate input to be a table scan; plan the full aggregate
physically; require the serialized root to be an Aggregate in `Final` mode;
detach its child as the partial plan; re-point the final aggregate at the
`partial` placeholder relation carrying the partial plan's schema; assemble
the `TumblingWindowAggregateOperator`. -/
def Planner.tumbling_window_config (p : Planner) (aggregate : AggregateCalculation) :
    Except PlanError LogicalNode := do
  let width ← match aggregate.window with
    | .tumbling width => pure width
    | _ => .error (.anyhowError "expected tumbling window")
  let binning_function_proto ←
    liftAnyhow (p.binning_function_proto width aggregate.agg_input.schema)
  let input_schema : ArroyoSchema :=
    { schema := aggregate.agg_input.schema
      timestamp_index := aggregate.agg_input.schema.fields.length - 1
      key_indices := aggregate.key_fields }
  let logical_plan := aggregate.aggregatePlan
  match aggregate.agg_input with
  | .tableScan _ _ _ => pure ()
  | _ => .error (.anyhowError "expected logical plan")
  let physical_plan_node ← match p.create_physical_plan logical_plan with
    | .ok node => pure node
    | .error e => .error (.anyhowError ("could not create physical plan for aggregate: " ++ e))
  match physical_plan_node with
  | .emptyNode => .error (.anyhowError "missing physical plan")
  | .memExec _ _ => .error (.anyhowError "expected aggregate physical plan")
  | .otherNode _ _ => .error (.anyhowError "expected aggregate physical plan")
  | .aggregate mode input outSchema =>
    match mode with
    | .Final => do
      let partial_aggregation_plan ← match input with
        | some node => pure node
        | none => .error (.panicked "should have input")
      let partial_schema ← liftAnyhow partial_aggregation_plan.schemaOf
      let final_input_table_provider : PhysicalPlanNode :=
        .memExec "partial" partial_schema
      let finish_plan : PhysicalPlanNode :=
        .aggregate .Final (some final_input_table_provider) outSchema
      let partial_arroyo_schema := ArroyoSchema.new
        (add_timestamp_field_arrow partial_schema)
        partial_schema.fields.length
        aggregate.key_fields
      let input_schema_grpc ← liftAnyhow input_schema.to_grpc
      let partial_schema_grpc ← liftAnyhow partial_arroyo_schema.to_grpc
      let config : TumblingWindowAggregateOperator :=
        { name := "TumblingWindow<" ++ durationDebug width ++ ">"
          width_micros := (width.nanos / 1000) % 2 ^ 64
          binning_function := binning_function_proto
          window_field_name := aggregate.window_field_name
          window_index := aggregate.window_index
          input_schema := some input_schema_grpc
          partial_schema := some partial_schema_grpc
          partial_aggregation_plan := partial_aggregation_plan
          final_aggregation_plan := finish_plan }
      .ok { operator_id := config.name
            description := "tumbling window"
            operator_name := .TumblingWindowAggregate
            operator_config := .tumbling config
            parallelism := 1 }
    | _ => .error (.anyhowError
        "expect AggregateMode to be Final so we can decompose it for checkpointing.")

/-- The state threaded through the topological walk of
`get_arrow_program`: the output graph under construction and the
`node_mapping` from input node indices to output node indices. -/
structure PlanState where
  program_graph : ProgramGraph
  node_mapping : List (Nat × Nat)
deriving Repr

/-- The `TableScan` arm of the walk: resolve the catalog table (a miss is a
caller-visible error, a non-connector table a panic), add a
`ConnectorSource` node and a `Watermark` node with the default periodic
configuration, connect them with a `Forward` edge carrying the scan's
projected schema and projection, and map the input node to the watermark. -/
def processTableScan (p : Planner) (st : PlanState) (node_index : Nat)
    (lp : DFLogicalPlan) : Except PlanError (PlanState × Nat) := do
  match lp with
  | .tableScan table_name projected_schema projection =>
    match p.get_table table_name with
    | none => .error (.anyhowError ("table " ++ table_name ++ " not found"))
    | some source =>
      match source with
      | .ConnectorTable cn => do
        let sql_source ← liftAnyhow cn.sql_source
        let (g1, source_index) := st.program_graph.add_node
          { operator_id := "source_" ++ Nat.repr st.program_graph.node_count
            description := sql_source.config.description
            operator_name := .ConnectorSource
            operator_config := .connectorOp sql_source.config
            parallelism := 1 }
        let (g2, watermark_index) := g1.add_node
          { operator_id := "watermark_" ++ Nat.repr g1.node_count
            description := "watermark"
            operator_name := .Watermark
            parallelism := 1
            operator_config := .watermark
              { period_micros := 1000000
                max_lateness_micros := 0
                idle_time_micros := none } }
        let edge : LogicalEdge :=
          { edge_type := .Forward, schema := projected_schema, projection := projection }
        let g3 := g2.add_edge source_index watermark_index edge
        .ok ({ program_graph := g3
               node_mapping := mapInsert st.node_mapping node_index watermark_index },
             watermark_index)
      | .OtherTable _ => .error (.panicked "expect connector table")
  | .aggregate _ _ _ _ => .error (.panicked "expected table scan")
  | .otherPlan _ _ => .error (.panicked "expected table scan")

/-- The `ValueCalculation` arm: plan the embedded logical plan physically
and add a single `ArrowValue` node. -/
def processValueCalculation (p : Planner) (st : PlanState) (node_index : Nat)
    (lp : DFLogicalPlan) : Except PlanError (PlanState × Nat) := do
  let physical_plan ← match p.create_physical_plan lp with
    | .ok node => pure node
    | .error e =>
      .error (.anyhowError ("creating physical plan for value calculation: " ++ e))
  let config : ValuePlanOperator := { name := "tmp", physical_plan := physical_plan }
  let (g1, new_node_index) := st.program_graph.add_node
    { operator_id := "value_" ++ Nat.repr st.program_graph.node_count
      description := "arrow_value<" ++ config.name ++ ">"
      operator_name := .ArrowValue
      operator_config := .value config
      parallelism := 1 }
  .ok ({ program_graph := g1
         node_mapping := mapInsert st.node_mapping node_index new_node_index },
       new_node_index)

/-- The `KeyCalculation` arm: plan the embedded logical plan physically and
add a single `ArrowKey` node carrying the key columns. -/
def processKeyCalculation (p : Planner) (st : PlanState) (node_index : Nat)
    (lp : DFLogicalPlan) (key_columns : List Nat) : Except PlanError (PlanState × Nat) := do
  let physical_plan ← match p.create_physical_plan lp with
    | .ok node => pure node
    | .error e => .error (.anyhowError ("creating physical plan: " ++ e))
  let config : KeyPlanOperator :=
    { name := "tmp", physical_plan := physical_plan, key_fields := key_columns }
  let (g1, new_node_index) := st.program_graph.add_node
    { operator_id := "key_" ++ Nat.repr st.program_graph.node_count
      operator_name := .ArrowKey
      operator_config := .key config
      description := "ArrowKey<" ++ config.name ++ ">"
      parallelism := 1 }
  .ok ({ program_graph := g1
         node_mapping := mapInsert st.node_mapping node_index new_node_index },
       new_node_index)

/-- The `AggregateCalculation` arm: require a table-scan input, dispatch on
the window kind (only tumbling windows are handled; every other kind falls
through to an `.expect` panic), suffix the operator id with the node count
and add the node. -/
def processAggregateCalculation (p : Planner) (st : PlanState) (node_index : Nat)
    (aggregate : AggregateCalculation) : Except PlanError (PlanState × Nat) := do
  match aggregate.agg_input with
  | .tableScan _ _ _ => pure ()
  | _ => .error (.anyhowError "expected logical plan")
  let logical_node_opt : Option LogicalNode ← match aggregate.window with
    | .tumbling _ => do
      let logical_node ← p.tumbling_window_config aggregate
      pure (some { logical_node with
        operator_id := logical_node.operator_id ++ "_" ++
          Nat.repr st.program_graph.node_count })
    | .sliding _ _ => pure none
    | .instant => pure none
    | .session _ => pure none
  let logical_node ← match logical_node_opt with
    | some logical_node => pure logical_node
    | none => .error (.panicked "only support tumbling windows for now")
  let (g1, new_node_index) := st.program_graph.add_node logical_node
  .ok ({ program_graph := g1
         node_mapping := mapInsert st.node_mapping node_index new_node_index },
       new_node_index)

/-- The `Sink` arm: add a single `ConnectorSink` node embedding the
connector operator. -/
def processSink (st : PlanState) (node_index : Nat) (connector_op : ConnectorOp) :
    Except PlanError (PlanState × Nat) :=
  let (g1, sink_index) := st.program_graph.add_node
    { operator_id := "sink_" ++ Nat.repr st.program_graph.node_count
      operator_name := .ConnectorSink
      operator_config := .connectorOp connector_op
      parallelism := 1
      description := connector_op.description }
  .ok ({ program_graph := g1
         node_mapping := mapInsert st.node_mapping node_index sink_index },
       sink_index)

/-- One rewired edge: add an output edge from `node_mapping[u]` (whose
`.unwrap()` panics when absent) to `new_node` with the converted weight. -/
def addEdgeStep (new_node : Nat) (st : PlanState) (e : Nat × Nat × DataFusionEdge) :
    Except PlanError PlanState :=
  match mapGet st.node_mapping e.1 with
  | none => .error (.panicked "unwrap on None")
  | some src =>
    .ok { st with program_graph := st.program_graph.add_edge src new_node e.2.2.toLogicalEdge }

/-- Rewire the input edges incoming to `node_index` onto the translated
nodes: for each rewriter edge `(u, node_index)` - `edges_directed(_,
Incoming)`, modelled as the edge arena restricted to this target, a
deterministic order either way - add one output edge. -/
def addIncomingEdges (rewriter : QueryToGraphVisitor) (node_index new_node : Nat)
    (st : PlanState) : Except PlanError PlanState :=
  (rewriter.edges.filter (fun e => e.2.1 == node_index)).foldlM (addEdgeStep new_node) st

/-- One iteration of the topological walk: translate the input node at
`node_index` (its weight's `.unwrap()` panics when the index is out of
bounds) and rewire its incoming edges. -/
def processNode (p : Planner) (rewriter : QueryToGraphVisitor) (st : PlanState)
    (node_index : Nat) : Except PlanError PlanState := do
  let logical_extension ← match rewriter.nodes[node_index]? with
    | some ext => pure ext
    | none => .error (.panicked "unwrap on None")
  let (st, new_node) ← match logical_extension with
    | .TableScan lp => processTableScan p st node_index lp
    | .ValueCalculation lp => processValueCalculation p st node_index lp
    | .KeyCalculation lp key_columns => processKeyCalculation p st node_index lp key_columns
    | .AggregateCalculation aggregate => processAggregateCalculation p st node_index aggregate
    | .Sink _ connector_op => processSink st node_index connector_op
  addIncomingEdges rewriter node_index new_node st

/-- `Planner::get_arrow_program` from a given initial state: fold the walk
over the topological order, then wrap the graph in a `LogicalProgram` and
return a `CompiledSql` with empty connection ids and an empty schema
registry. -/
def Planner.get_arrow_programFrom (p : Planner) (rewriter : QueryToGraphVisitor)
    (init : PlanState) : Except PlanError CompiledSql := do
  let st ← rewriter.topo_order.foldlM (processNode p rewriter) init
  .ok { program := { graph := st.program_graph }
        connection_ids := []
        schemas := [] }

/-- `Planner::get_arrow_program`: the walk starting from the empty graph and
the empty `node_mapping`. -/
def Planner.get_arrow_program (p : Planner) (rewriter : QueryToGraphVisitor) :
    Except PlanError CompiledSql :=
  p.get_arrow_programFrom rewriter
    { program_graph := { nodes := [], edges := [] }, node_mapping := [] }

/-! ## Concrete fixtures used by witnesses and counterexamples -/

/-- A source schema `(a:i64, b:i64, _timestamp:ts_ns)`. -/
def sampleInputSchema : ArrowSchema :=
  { fields := [
      { name := "a", dtype := .int64, nullable := false },
      { name := "b", dtype := .int64, nullable := false },
      { name := "_timestamp", dtype := .timestampNanosecond, nullable := false }] }

/-- A connector source configuration. -/
def sampleConnectorOp : ConnectorOp :=
  { connector := "kafka", config := "topic=in", description := "kafka source" }

/-- A connector sink configuration. -/
def sampleSinkOp : ConnectorOp :=
  { connector := "kafka", config := "topic=out", description := "kafka sink" }

/-- A catalog connector table for the source. -/
def sampleTable : Table :=
  .ConnectorTable { sql_source := .ok { config := sampleConnectorOp, schema := sampleInputSchema } }

/-- The partial aggregate's output schema. -/
def samplePartialOutSchema : ArrowSchema :=
  { fields := [
      { name := "a", dtype := .int64, nullable := false },
      { name := "sum_acc", dtype := .int64, nullable := true }] }

/-- The final aggregate's output schema. -/
def sampleOutSchema : ArrowSchema :=
  { fields := [
      { name := "a", dtype := .int64, nullable := false },
      { name := "s", dtype := .int64, nullable := true }] }

/-- The serialized partial-aggregation sub-plan the sub-planner returns. -/
def samplePartialNode : PhysicalPlanNode :=
  .otherNode "hash_aggregate_mode_partial" samplePartialOutSchema

/-- The serialized physical tree for the full aggregate: a `Final`-mode
Aggregate over the partial plan. -/
def sampleFinalNode : PhysicalPlanNode :=
  .aggregate .Final (some samplePartialNode) sampleOutSchema

/-- A physical sub-planner behaviour honouring the §4.3 contract: aggregates
plan to a Final-mode aggregate over a partial plan, everything else to an
opaque node with the plan's schema. -/
def samplePhysicalPlanner : DFLogicalPlan → Except String PhysicalPlanNode
  | .aggregate _ _ _ _ => .ok sampleFinalNode
  | lp => .ok (.otherNode "projection" lp.schema)

/-- A planner whose catalog binds `t` to the sample connector table. -/
def samplePlanner : Planner :=
  { schema_provider := [("t", sampleTable)], create_physical_plan := samplePhysicalPlanner }

/-- The scan of `t` with a full projection. -/
def sampleScanPlan : DFLogicalPlan :=
  .tableScan "t" sampleInputSchema (some [0, 1, 2])

/-- A keyed 5-second tumbling aggregate over the scan. -/
def sampleAggregate : AggregateCalculation :=
  { agg_input := sampleScanPlan
    agg_group_expr := ["a"]
    agg_aggr_expr := ["sum(b)"]
    agg_schema := sampleOutSchema
    window := .tumbling { nanos := 5000000000 }
    key_fields := [0]
    window_field_name := "window"
    window_index := 1 }

/-- A one-scan-one-sink rewriter graph. -/
def sampleScanSinkGraph : QueryToGraphVisitor :=
  { nodes := [.TableScan sampleScanPlan, .Sink "out" sampleSinkOp]
    edges := [(0, 1, { schema := sampleInputSchema, edge_type := .Forward, projection := none })]
    topo_order := [0, 1] }

/-- The sample aggregate with a sliding window (S5). -/
def sampleSlidingAggregate : AggregateCalculation :=
  { sampleAggregate with
    window := .sliding { nanos := 10000000000 } { nanos := 1000000000 } }

/-- A rewriter graph containing a sliding-window aggregate. -/
def sampleSlidingGraph : QueryToGraphVisitor :=
  { nodes := [.AggregateCalculation sampleSlidingAggregate]
    edges := []
    topo_order := [0] }

/-- A planner whose catalog binds `nc` to a non-connector table. -/
def sampleViewPlanner : Planner :=
  { schema_provider := [("nc", .OtherTable "memory_view")]
    create_physical_plan := samplePhysicalPlanner }

/-- A rewriter graph scanning the non-connector table `nc`. -/
def sampleViewScanGraph : QueryToGraphVisitor :=
  { nodes := [.TableScan (.tableScan "nc" sampleInputSchema none)]
    edges := []
    topo_order := [0] }

/-- A rewriter graph scanning a table absent from the catalog (S4). -/
def sampleMissingScanGraph : QueryToGraphVisitor :=
  { nodes := [.TableScan (.tableScan "missing" sampleInputSchema none)]
    edges := []
    topo_order := [0] }

/-! ## Characterizing the tumbling-window decomposition -/

/-- Helper: a successful `tumbling_window_config` call determines the node
completely: the sub-planner returned a Final-mode aggregate whose child
decodes to schema `P`, the aggregate input is a table scan, and the
resulting node carries the assembled configuration. -/
theorem tumbling_window_config_ok_spec (p : Planner) (agg : AggregateCalculation)
    (width : Duration) (hw : agg.window = .tumbling width)
    (ln : LogicalNode) (hok : p.tumbling_window_config agg = .ok ln) :
    ∃ part P outS binning,
      p.create_physical_plan agg.aggregatePlan = .ok (.aggregate .Final (some part) outS) ∧
      part.schemaOf = .ok P ∧
      p.binning_function_proto width agg.agg_input.schema = .ok binning ∧
      (∃ tn ps proj, agg.agg_input = .tableScan tn ps proj) ∧
      ln = { operator_id := "TumblingWindow<" ++ durationDebug width ++ ">"
             description := "tumbling window"
             operator_name := .TumblingWindowAggregate
             operator_config := .tumbling
               { name := "TumblingWindow<" ++ durationDebug width ++ ">"
                 width_micros := (width.nanos / 1000) % 2 ^ 64
                 binning_function := binning
                 window_field_name := agg.window_field_name
                 window_index := agg.window_index
                 input_schema := some
                   { arrow_schema := agg.agg_input.schema
                     timestamp_index := (agg.agg_input.schema.fields.length - 1) % 2 ^ 32
                     key_indices := agg.key_fields.map (fun i => i % 2 ^ 32) }
                 partial_schema := some
                   { arrow_schema := add_timestamp_field_arrow P
                     timestamp_index := P.fields.length % 2 ^ 32
                     key_indices := agg.key_fields.map (fun i => i % 2 ^ 32) }
                 partial_aggregation_plan := part
                 final_aggregation_plan :=
                   .aggregate .Final (some (.memExec "partial" P)) outS }
             parallelism := 1 } := by
  unfold Planner.tumbling_window_config at hok
  rw [hw] at hok
  simp only [bind, Except.bind, pure, Except.pure] at hok
  rcases hbin : p.binning_function_proto width agg.agg_input.schema with e | binning <;>
    rw [hbin] at hok <;> simp only [liftAnyhow] at hok
  · exact absurd hok (by simp)
  rcases hts : agg.agg_input with ⟨tn, ps, proj⟩ | ⟨inp, ge, ae, s⟩ | ⟨tag, s⟩ <;>
    rw [hts] at hok <;> simp only at hok
  case _ =>
    rcases hplan : p.create_physical_plan agg.aggregatePlan with e | node <;>
      rw [hplan] at hok <;> simp only at hok
    · exact absurd hok (by simp)
    rcases node with ⟨mode, input, outSchema⟩ | ⟨a, b⟩ | ⟨a, b⟩ | _ <;>
      simp only at hok
    case _ =>
      rcases mode <;> simp only at hok
      case Final =>
        rcases input with _ | part <;> simp only at hok
        · exact absurd hok (by simp)
        rcases hP : part.schemaOf with e | P <;>
          rw [hP] at hok <;> simp only [liftAnyhow] at hok
        · exact absurd hok (by simp)
        simp only [ArroyoSchema.to_grpc, ArroyoSchema.new, DFLogicalPlan.schema,
          Except.ok.injEq] at hok
        refine ⟨part, P, outSchema, binning, rfl, hP, rfl, ⟨tn, ps, proj, rfl⟩, ?_⟩
        rw [← hok]
        simp only [DFLogicalPlan.schema]
      all_goals exact absurd hok (by simp)
    all_goals exact absurd hok (by simp)
  all_goals exact absurd hok (by simp)

/-- Helper: when the sub-planner's serialized result is not a Final-mode
Aggregate, `tumbling_window_config` cannot succeed. -/
theorem tumbling_window_config_requires_final (p : Planner) (agg : AggregateCalculation)
    (node : PhysicalPlanNode)
    (hplan : p.create_physical_plan agg.aggregatePlan = .ok node)
    (hshape : ∀ inp s, node ≠ .aggregate .Final inp s) :
    ∀ ln, p.tumbling_window_config agg ≠ .ok ln := by
  intro ln hok
  cases hwin : agg.window with
  | tumbling w =>
    obtain ⟨part, P, outS, binning, hplan2, _, _, _, _⟩ :=
      tumbling_window_config_ok_spec p agg w hwin ln hok
    rw [hplan] at hplan2
    cases hplan2
    exact hshape (some part) outS rfl
  | sliding w s =>
    unfold Planner.tumbling_window_config at hok
    rw [hwin] at hok
    exact absurd hok (by simp [bind, Except.bind])
  | instant =>
    unfold Planner.tumbling_window_config at hok
    rw [hwin] at hok
    exact absurd hok (by simp [bind, Except.bind])
  | session g =>
    unfold Planner.tumbling_window_config at hok
    rw [hwin] at hok
    exact absurd hok (by simp [bind, Except.bind])

/-- **C1**: for every `AggregateCalculation` with a Tumbling window, the
decomposition requires the sub-planner's serialized result to have a root
Aggregate node in Final mode and fails otherwise; it detaches that Final
node's child as the partial aggregation plan and replaces the Final
aggregate's child with a placeholder in-memory relation whose table name is
`partial` and whose schema equals the partial plan's output schema; both
serialized sub-plans are stored in the resulting
`TumblingWindowAggregateOperator` configuration. -/
theorem C1_tumbling_decomposition (p : Planner) (agg : AggregateCalculation)
    (width : Duration) (hw : agg.window = .tumbling width) :
    (∀ node, p.create_physical_plan agg.aggregatePlan = .ok node →
      (∀ inp s, node ≠ .aggregate .Final inp s) →
      ∀ ln, p.tumbling_window_config agg ≠ .ok ln) ∧
    (∀ ln, p.tumbling_window_config agg = .ok ln →
      ∃ part P outS cfg,
        p.create_physical_plan agg.aggregatePlan = .ok (.aggregate .Final (some part) outS) ∧
        part.schemaOf = .ok P ∧
        ln.operator_config = .tumbling cfg ∧
        cfg.partial_aggregation_plan = part ∧
        cfg.final_aggregation_plan = .aggregate .Final (some (.memExec "partial" P)) outS) := by
  constructor
  · intro node hplan hshape
    exact tumbling_window_config_requires_final p agg node hplan hshape
  · intro ln hok
    obtain ⟨part, P, outS, binning, hplan, hP, hbin, _, hln⟩ :=
      tumbling_window_config_ok_spec p agg width hw ln hok
    subst hln
    exact ⟨part, P, outS, _, hplan, hP, rfl, rfl, rfl⟩

/-- A default `LogicalNode` used only to model unreachable branches when
projecting concrete fixtures. -/
def junkLogicalNode : LogicalNode :=
  { operator_id := "", description := "", operator_name := .ConnectorSink
    operator_config := .connectorOp sampleSinkOp, parallelism := 0 }

/-- The node that `tumbling_window_config` produces on the sample
aggregate. -/
def sampleTumblingNode : LogicalNode :=
  match samplePlanner.tumbling_window_config sampleAggregate with
  | .ok ln => ln
  | .error _ => junkLogicalNode

/-- A default `TumblingWindowAggregateOperator` used only to model
unreachable branches when projecting concrete fixtures. -/
def junkTumblingOperator : TumblingWindowAggregateOperator :=
  { name := "", width_micros := 0
    binning_function := .literal (.intervalMonthDayNano 0 0 0)
    window_field_name := "", window_index := 0
    input_schema := none, partial_schema := none
    partial_aggregation_plan := .emptyNode, final_aggregation_plan := .emptyNode }

/-- The configuration carried by `sampleTumblingNode`. -/
def sampleTumblingOperator : TumblingWindowAggregateOperator :=
  match sampleTumblingNode.operator_config with
  | .tumbling t => t
  | _ => junkTumblingOperator

/-- Witness for C1 at the sample fixtures. -/
theorem C1_tumbling_decomposition_witness :
    (∀ node, samplePlanner.create_physical_plan sampleAggregate.aggregatePlan = .ok node →
      (∀ inp s, node ≠ .aggregate .Final inp s) →
      ∀ ln, samplePlanner.tumbling_window_config sampleAggregate ≠ .ok ln) ∧
    (∀ ln, samplePlanner.tumbling_window_config sampleAggregate = .ok ln →
      ∃ part P outS cfg,
        samplePlanner.create_physical_plan sampleAggregate.aggregatePlan =
          .ok (.aggregate .Final (some part) outS) ∧
        part.schemaOf = .ok P ∧
        ln.operator_config = .tumbling cfg ∧
        cfg.partial_aggregation_plan = part ∧
        cfg.final_aggregation_plan = .aggregate .Final (some (.memExec "partial" P)) outS) :=
  C1_tumbling_decomposition samplePlanner sampleAggregate { nanos := 5000000000 } rfl

/-- Helper: mapping a pointwise-identity function leaves a list unchanged. -/
theorem map_id_of_mem {α : Type} (l : List α) (f : α → α) (h : ∀ a ∈ l, f a = a) :
    l.map f = l := by
  induction l with
  | nil => rfl
  | cons a l ih =>
    simp only [List.map_cons, List.cons.injEq]
    exact ⟨h a (by simp), ih (fun a ha => h a (by simp [ha]))⟩

/-- **C2**: a produced TumblingWindowAggregate configuration has
`input_schema` wrapping the aggregate's original input arrow schema with
`timestamp_index = fields.length - 1` and `key_indices = key_fields`, and
`partial_schema` equal to the partial plan's output schema `P` with a
`_timestamp` column appended, `timestamp_index` pointing at that appended
last column and `key_indices = key_fields` (so `partial_schema`'s last
field is named `_timestamp`). The index bounds reflect that the wire form
stores `u32` indices. -/
theorem C2_tumbling_schemas (p : Planner) (agg : AggregateCalculation)
    (width : Duration) (hw : agg.window = .tumbling width)
    (ln : LogicalNode) (cfg : TumblingWindowAggregateOperator)
    (hok : p.tumbling_window_config agg = .ok ln)
    (hcfg : ln.operator_config = .tumbling cfg)
    (part : PhysicalPlanNode) (P : ArrowSchema) (outS : ArrowSchema)
    (hplan : p.create_physical_plan agg.aggregatePlan = .ok (.aggregate .Final (some part) outS))
    (hP : part.schemaOf = .ok P)
    (hlen : agg.agg_input.schema.fields.length ≤ 2 ^ 32)
    (hPlen : P.fields.length < 2 ^ 32)
    (hkeys : ∀ k ∈ agg.key_fields, k < 2 ^ 32) :
    cfg.input_schema = some
      { arrow_schema := agg.agg_input.schema
        timestamp_index := agg.agg_input.schema.fields.length - 1
        key_indices := agg.key_fields } ∧
    cfg.partial_schema = some
      { arrow_schema := { fields := P.fields ++ [timestampArrowField] }
        timestamp_index := P.fields.length
        key_indices := agg.key_fields } ∧
    (P.fields ++ [timestampArrowField]).getLast? = some timestampArrowField ∧
    timestampArrowField.name = "_timestamp" := by
  obtain ⟨part2, P2, outS2, binning, hplan2, hP2, hbin, hts, hln⟩ :=
    tumbling_window_config_ok_spec p agg width hw ln hok
  rw [hplan] at hplan2
  cases hplan2
  rw [hP] at hP2
  cases hP2
  subst hln
  simp only [OperatorConfig.tumbling.injEq] at hcfg
  subst hcfg
  have hkeymap : agg.key_fields.map (fun i => i % 2 ^ 32) = agg.key_fields :=
    map_id_of_mem _ _ (fun k hk => Nat.mod_eq_of_lt (hkeys k hk))
  have hts_lt : agg.agg_input.schema.fields.length - 1 < 2 ^ 32 := by
    omega
  refine ⟨?_, ?_, List.getLast?_concat _, rfl⟩
  · simp only [Nat.mod_eq_of_lt hts_lt, hkeymap]
  · simp only [Nat.mod_eq_of_lt hPlen, hkeymap, add_timestamp_field_arrow]

/-- Witness for C2 at the sample fixtures. -/
theorem C2_tumbling_schemas_witness :
    sampleTumblingOperator.input_schema = some
      { arrow_schema := sampleAggregate.agg_input.schema
        timestamp_index := sampleAggregate.agg_input.schema.fields.length - 1
        key_indices := sampleAggregate.key_fields } ∧
    sampleTumblingOperator.partial_schema = some
      { arrow_schema := { fields := samplePartialOutSchema.fields ++ [timestampArrowField] }
        timestamp_index := samplePartialOutSchema.fields.length
        key_indices := sampleAggregate.key_fields } ∧
    (samplePartialOutSchema.fields ++ [timestampArrowField]).getLast? =
      some timestampArrowField ∧
    timestampArrowField.name = "_timestamp" :=
  C2_tumbling_schemas samplePlanner sampleAggregate { nanos := 5000000000 } rfl
    sampleTumblingNode sampleTumblingOperator rfl rfl
    samplePartialNode samplePartialOutSchema sampleOutSchema rfl rfl
    (by decide) (by decide) (by decide)

/-- Helper: the `u128 -> i64` cast is the identity below `2 ^ 63`. -/
theorem i64_of_u128_small (n : Nat) (h : n < 2 ^ 63) : i64_of_u128 n = (n : Int) := by
  unfold i64_of_u128
  rw [Nat.mod_eq_of_lt (by omega)]
  rw [if_pos h]

/-- **C7**: for a tumbling window of width `w` integer nanoseconds (within
`i64` range), the operator configuration records `width_micros` as `w`
truncated to whole microseconds, while the binning expression is `date_bin`
applied to the `_timestamp` column with an interval of 0 months, 0 days and
`w` nanoseconds (full nanosecond precision). -/
theorem C7_width_truncation_and_binning (p : Planner) (agg : AggregateCalculation)
    (width : Duration) (hw : agg.window = .tumbling width)
    (ln : LogicalNode) (cfg : TumblingWindowAggregateOperator)
    (hok : p.tumbling_window_config agg = .ok ln)
    (hcfg : ln.operator_config = .tumbling cfg)
    (h63 : width.nanos < 2 ^ 63) :
    cfg.width_micros = width.nanos / 1000 ∧
    ∃ i, agg.agg_input.schema.column_with_name "_timestamp" = some i ∧
      cfg.binning_function = .scalarFunction "date_bin"
        [.literal (.intervalMonthDayNano 0 0 (width.nanos : Int)),
         .column "_timestamp" i] := by
  obtain ⟨part, P, outS, binning, hplan, hP, hbin, hts, hln⟩ :=
    tumbling_window_config_ok_spec p agg width hw ln hok
  subst hln
  simp only [OperatorConfig.tumbling.injEq] at hcfg
  subst hcfg
  constructor
  · exact Nat.mod_eq_of_lt (Nat.lt_of_le_of_lt (Nat.div_le_self _ _) (by omega))
  · unfold Planner.binning_function_proto at hbin
    rw [i64_of_u128_small width.nanos h63] at hbin
    simp only [resolvePhysicalExpr, resolvePhysicalExprList, bind, Except.bind, pure,
      Except.pure] at hbin
    rcases hcol : agg.agg_input.schema.column_with_name "_timestamp" with _ | i <;>
      rw [hcol] at hbin
    · exact absurd hbin (by simp)
    · simp only [Except.ok.injEq] at hbin
      exact ⟨i, rfl, hbin.symm⟩

/-- Witness for C7 at the sample fixtures. -/
theorem C7_width_truncation_and_binning_witness :
    sampleTumblingOperator.width_micros = 5000000000 / 1000 ∧
    ∃ i, sampleAggregate.agg_input.schema.column_with_name "_timestamp" = some i ∧
      sampleTumblingOperator.binning_function = .scalarFunction "date_bin"
        [.literal (.intervalMonthDayNano 0 0 (5000000000 : Int)),
         .column "_timestamp" i] :=
  C7_width_truncation_and_binning samplePlanner sampleAggregate { nanos := 5000000000 } rfl
    sampleTumblingNode sampleTumblingOperator rfl rfl (by decide)

/-! ## ArroyoSchema constructor properties (C10) -/

/-- Helper: a successful `findIdx?` yields an element satisfying the
predicate at the found index. -/
theorem findIdx?_zero_some {α : Type} (p : α → Bool) (l : List α) (i : Nat)
    (h : l.findIdx? p = some i) : ∃ a, l[i]? = some a ∧ p a = true := by
  induction l generalizing i with
  | nil => simp at h
  | cons x xs ih =>
    rw [List.findIdx?_cons] at h
    by_cases hp : p x
    · rw [if_pos hp] at h
      cases h
      exact ⟨x, by simp, hp⟩
    · rw [if_neg hp] at h
      rw [List.findIdx?_start_succ] at h
      rcases hfi : xs.findIdx? p with _ | j <;> rw [hfi] at h
      · exact absurd h (by simp)
      · simp only [Option.map_some', Option.some.injEq] at h
        obtain ⟨a, ha, hpa⟩ := ih j hfi
        subst h
        exact ⟨a, by simpa using ha, hpa⟩

/-- Helper: when some field bears the name, `column_with_name` finds an
index. -/
theorem column_with_name_exists (fs : List ArrowField) (nm : String)
    (hany : fs.any (fun f => f.name == nm) = true) :
    ∃ i, ArrowSchema.column_with_name { fields := fs } nm = some i := by
  unfold ArrowSchema.column_with_name
  have h := @List.findIdx?_isSome _ fs (fun f => f.name == nm)
  rw [hany] at h
  exact Option.isSome_iff_exists.mp h

/-- Helper: the index found by `column_with_name` carries a field with the
requested name. -/
theorem column_with_name_some_spec (fs : List ArrowField) (nm : String) (i : Nat)
    (h : ArrowSchema.column_with_name { fields := fs } nm = some i) :
    ∃ fld, fs[i]? = some fld ∧ fld.name = nm := by
  unfold ArrowSchema.column_with_name at h
  obtain ⟨fld, hget, hp⟩ := findIdx?_zero_some _ fs i h
  exact ⟨fld, hget, by simpa using hp⟩

/-- A schema with no `_timestamp` column. -/
def sampleNoTimestampSchema : ArrowSchema :=
  { fields := [{ name := "a", dtype := .int64, nullable := false }] }

/-- **C10 counterexample**: `ArroyoSchema::new` and wire-form
deserialization are public constructors, yet the value they produce here
has no `_timestamp` column at all, refuting the claimed invariant. -/
theorem C10_counterexample :
    (ArroyoSchema.new sampleNoTimestampSchema 0 []).schema.column_with_name
      TIMESTAMP_FIELD = none ∧
    ArroyoSchema.try_from_grpc
      { arrow_schema := sampleNoTimestampSchema, timestamp_index := 0, key_indices := [] } =
      .ok (ArroyoSchema.new sampleNoTimestampSchema 0 []) := by
  constructor <;> rfl

/-- **C10 (amended)**: `from_fields` appends `_timestamp` when absent and
its result's `timestamp_index` names a `_timestamp` column;
`from_schema_keys` fails when `_timestamp` is absent and otherwise points
`timestamp_index` at its first occurrence; but `new` and wire-form
deserialization store their arguments without validation, so the invariant
is not guaranteed for them. -/
theorem C10_amended_constructors :
    (∀ fields : List ArrowField, ∃ i fld,
      (ArroyoSchema.from_fields fields).schema.column_with_name TIMESTAMP_FIELD = some i ∧
      (ArroyoSchema.from_fields fields).timestamp_index = i ∧
      (ArroyoSchema.from_fields fields).schema.fields[i]? = some fld ∧
      fld.name = TIMESTAMP_FIELD) ∧
    (∀ s keys, s.column_with_name TIMESTAMP_FIELD = none →
      ∀ r, ArroyoSchema.from_schema_keys s keys ≠ .ok r) ∧
    (∀ s keys i, s.column_with_name TIMESTAMP_FIELD = some i →
      ArroyoSchema.from_schema_keys s keys = .ok (ArroyoSchema.new s i keys)) ∧
    (∀ g, ArroyoSchema.try_from_grpc g =
      .ok (ArroyoSchema.new g.arrow_schema g.timestamp_index g.key_indices)) := by
  refine ⟨?_, ?_, ?_, fun g => rfl⟩
  · intro fields
    by_cases hany : fields.any (fun f => f.name == TIMESTAMP_FIELD) = true
    · obtain ⟨i, hi⟩ := column_with_name_exists fields TIMESTAMP_FIELD hany
      obtain ⟨fld, hfld, hname⟩ := column_with_name_some_spec fields TIMESTAMP_FIELD i hi
      refine ⟨i, fld, ?_, ?_, ?_, hname⟩ <;>
        simp only [ArroyoSchema.from_fields, ArroyoSchema.from_schema_keys, hany, if_true, hi,
          hfld]
    · have hany2 : (fields ++ [timestampArrowField]).any
          (fun f => f.name == TIMESTAMP_FIELD) = true := by
        simp [List.any_append, timestampArrowField]
      obtain ⟨i, hi⟩ :=
        column_with_name_exists (fields ++ [timestampArrowField]) TIMESTAMP_FIELD hany2
      obtain ⟨fld, hfld, hname⟩ :=
        column_with_name_some_spec (fields ++ [timestampArrowField]) TIMESTAMP_FIELD i hi
      refine ⟨i, fld, ?_, ?_, ?_, hname⟩ <;>
        simp only [ArroyoSchema.from_fields, ArroyoSchema.from_schema_keys, hany, if_false,
          Bool.false_eq_true, hi, hfld]
  · intro s keys hnone r hok
    unfold ArroyoSchema.from_schema_keys at hok
    rw [hnone] at hok
    exact absurd hok (by simp)
  · intro s keys i hsome
    unfold ArroyoSchema.from_schema_keys
    rw [hsome]
    rfl

/-- Witness for the amended C10 at concrete schemas. -/
theorem C10_amended_constructors_witness :
    ArroyoSchema.from_schema_keys sampleNoTimestampSchema [] ≠
      .ok (ArroyoSchema.new sampleNoTimestampSchema 0 []) ∧
    ArroyoSchema.from_schema_keys sampleInputSchema [0] =
      .ok (ArroyoSchema.new sampleInputSchema 2 [0]) :=
  ⟨C10_amended_constructors.2.1 sampleNoTimestampSchema [] rfl _,
   C10_amended_constructors.2.2.1 sampleInputSchema [0] 2 rfl⟩

/-! ## Unsupported windows and table resolution (C4, C5) -/

/-- **C4 counterexample**: planning an input with a Sliding-window
aggregate does not produce a caller-visible `UnsupportedWindow` error: the
planner panics (the `.expect` on the window dispatch) with a message that
does not identify the window kind. -/
theorem C4_counterexample :
    samplePlanner.get_arrow_program sampleSlidingGraph =
      .error (.panicked "only support tumbling windows for now") ∧
    isCallerVisibleError (samplePlanner.get_arrow_program sampleSlidingGraph) = false := by
  constructor <;> rfl

/-- **C4 (amended)**: for an `AggregateCalculation` whose window kind is
not Tumbling (hence Sliding, Session or Instant), translation panics with
the fixed message `only support tumbling windows for now`; the failure is a
panic, not a caller-visible error, and does not name the window kind. -/
theorem C4_amended_nontumbling_panics (p : Planner) (rewriter : QueryToGraphVisitor)
    (st : PlanState) (idx : Nat) (agg : AggregateCalculation)
    (hnode : rewriter.nodes[idx]? = some (.AggregateCalculation agg))
    (tn : String) (ps : ArrowSchema) (proj : Option (List Nat))
    (hts : agg.agg_input = .tableScan tn ps proj)
    (hnt : ∀ w, agg.window ≠ .tumbling w) :
    processNode p rewriter st idx =
      .error (.panicked "only support tumbling windows for now") ∧
    isCallerVisibleError (processNode p rewriter st idx) = false := by
  have harm : processAggregateCalculation p st idx agg =
      .error (.panicked "only support tumbling windows for now") := by
    unfold processAggregateCalculation
    rw [hts]
    cases hwin : agg.window with
    | tumbling _w => exact absurd hwin (hnt _)
    | sliding w s => rfl
    | instant => rfl
    | session g => rfl
  have hmain : processNode p rewriter st idx =
      .error (.panicked "only support tumbling windows for now") := by
    unfold processNode
    rw [hnode]
    simp only [bind, Except.bind, pure, Except.pure]
    rw [harm]
  exact ⟨hmain, by rw [hmain]; rfl⟩

/-- Witness for the amended C4 at the sliding-window fixture. -/
theorem C4_amended_nontumbling_panics_witness :
    processNode samplePlanner sampleSlidingGraph
      { program_graph := { nodes := [], edges := [] }, node_mapping := [] } 0 =
      .error (.panicked "only support tumbling windows for now") ∧
    isCallerVisibleError (processNode samplePlanner sampleSlidingGraph
      { program_graph := { nodes := [], edges := [] }, node_mapping := [] } 0) = false :=
  C4_amended_nontumbling_panics samplePlanner sampleSlidingGraph
    { program_graph := { nodes := [], edges := [] }, node_mapping := [] } 0
    sampleSlidingAggregate rfl "t" sampleInputSchema (some [0, 1, 2]) rfl
    (fun _w h => WindowType.noConfusion h)

/-- **C5 counterexample**: scanning a table that resolves to a
non-connector table does not produce a caller-visible `NotASource` error:
the planner panics (`panic!("expect connector table")`) with a message that
does not name the table. -/
theorem C5_counterexample :
    sampleViewPlanner.get_arrow_program sampleViewScanGraph =
      .error (.panicked "expect connector table") ∧
    isCallerVisibleError (sampleViewPlanner.get_arrow_program sampleViewScanGraph) = false := by
  constructor <;> rfl

/-- **C5 (amended)**: a table scan over a name absent from the catalog
fails with a caller-visible error naming the table (`table <name> not
found`); but a resolved non-connector table causes a panic (`expect
connector table`) which is not a caller-visible error and does not name the
table. -/
theorem C5_amended_table_resolution (p : Planner) (st : PlanState) (idx : Nat)
    (tn : String) (ps : ArrowSchema) (proj : Option (List Nat)) :
    (p.get_table tn = none →
      processTableScan p st idx (.tableScan tn ps proj) =
        .error (.anyhowError ("table " ++ tn ++ " not found")) ∧
      isCallerVisibleError (processTableScan p st idx (.tableScan tn ps proj)) = true) ∧
    (∀ tag, p.get_table tn = some (.OtherTable tag) →
      processTableScan p st idx (.tableScan tn ps proj) =
        .error (.panicked "expect connector table") ∧
      isCallerVisibleError (processTableScan p st idx (.tableScan tn ps proj)) = false) := by
  constructor
  · intro hmiss
    have h : processTableScan p st idx (.tableScan tn ps proj) =
        .error (.anyhowError ("table " ++ tn ++ " not found")) := by
      unfold processTableScan
      dsimp only
      rw [hmiss]
    exact ⟨h, by rw [h]; rfl⟩
  · intro tag hother
    have h : processTableScan p st idx (.tableScan tn ps proj) =
        .error (.panicked "expect connector table") := by
      unfold processTableScan
      dsimp only
      rw [hother]
    exact ⟨h, by rw [h]; rfl⟩

/-- Witness for the amended C5: the missing table `missing` and the
non-connector table `nc`. -/
theorem C5_amended_table_resolution_witness :
    (processTableScan samplePlanner
        { program_graph := { nodes := [], edges := [] }, node_mapping := [] } 0
        (.tableScan "missing" sampleInputSchema none) =
      .error (.anyhowError ("table " ++ "missing" ++ " not found")) ∧
      isCallerVisibleError (processTableScan samplePlanner
        { program_graph := { nodes := [], edges := [] }, node_mapping := [] } 0
        (.tableScan "missing" sampleInputSchema none)) = true) ∧
    (processTableScan sampleViewPlanner
        { program_graph := { nodes := [], edges := [] }, node_mapping := [] } 0
        (.tableScan "nc" sampleInputSchema none) =
      .error (.panicked "expect connector table") ∧
      isCallerVisibleError (processTableScan sampleViewPlanner
        { program_graph := { nodes := [], edges := [] }, node_mapping := [] } 0
        (.tableScan "nc" sampleInputSchema none)) = false) :=
  ⟨(C5_amended_table_resolution samplePlanner
      { program_graph := { nodes := [], edges := [] }, node_mapping := [] } 0
      "missing" sampleInputSchema none).1 rfl,
   (C5_amended_table_resolution sampleViewPlanner
      { program_graph := { nodes := [], edges := [] }, node_mapping := [] } 0
      "nc" sampleInputSchema none).2 "memory_view" rfl⟩

/-! ## The compiled output's registry and connection ids (C9) -/

/-- **C9 counterexample**: a successfully planned query whose program has
two edges, yet the returned `CompiledSql` carries an empty edge-schema
registry and an empty connection-id list. -/
theorem C9_counterexample :
    (samplePlanner.get_arrow_program sampleScanSinkGraph).map
      (fun c => (c.schemas, c.connection_ids, c.program.graph.edges.length)) =
      .ok ([], [], 2) := by
  rfl

/-- **C9 (amended)**: for every successfully planned input the compiled
output does carry a schema-registry field and a connection-id field
alongside the operator graph, but the planner always returns both empty. -/
theorem C9_amended_empty_outputs (p : Planner) (rewriter : QueryToGraphVisitor)
    (out : CompiledSql) (hok : p.get_arrow_program rewriter = .ok out) :
    out.schemas = [] ∧ out.connection_ids = [] := by
  unfold Planner.get_arrow_program Planner.get_arrow_programFrom at hok
  simp only [bind, Except.bind, pure, Except.pure] at hok
  split at hok
  · exact absurd hok (by simp)
  · simp only [Except.ok.injEq] at hok
    subst hok
    exact ⟨rfl, rfl⟩

/-- A default `CompiledSql` used only to model unreachable branches when
projecting concrete fixtures. -/
def junkCompiledSql : CompiledSql :=
  { program := { graph := { nodes := [], edges := [] } }
    connection_ids := [7], schemas := [(0, ArroyoSchema.new sampleInputSchema 2 [])] }

/-- The compiled output of the sample scan-to-sink query. -/
def sampleCompiled : CompiledSql :=
  match samplePlanner.get_arrow_program sampleScanSinkGraph with
  | .ok c => c
  | .error _ => junkCompiledSql

/-- Witness for the amended C9 at the scan-to-sink fixture. -/
theorem C9_amended_empty_outputs_witness :
    sampleCompiled.schemas = [] ∧ sampleCompiled.connection_ids = [] :=
  C9_amended_empty_outputs samplePlanner sampleScanSinkGraph sampleCompiled rfl

/-! ## Decimal renderings: `Nat.repr` facts for operator-id uniqueness -/

/-- Structural decimal digit list of a natural number (most significant
first); used to reason about `Nat.repr`. -/
def natDigits (n : Nat) : List Char :=
  if _h : n < 10 then [Nat.digitChar n]
  else natDigits (n / 10) ++ [Nat.digitChar (n % 10)]
decreasing_by exact Nat.div_lt_self (by omega) (by omega)

/-- `Nat.toDigitsCore` with enough fuel prepends the digits of `n`. -/
theorem toDigitsCore_eq_natDigits (fuel : Nat) :
    ∀ (n : Nat) (ds : List Char), n < fuel →
      Nat.toDigitsCore 10 fuel n ds = natDigits n ++ ds := by
  induction fuel with
  | zero => intro n ds h; omega
  | succ fuel ih =>
    intro n ds h
    rw [Nat.toDigitsCore]
    by_cases h10 : n / 10 = 0
    · rw [if_pos h10]
      have hn : n < 10 := by omega
      rw [natDigits, dif_pos hn, Nat.mod_eq_of_lt hn]
      rfl
    · rw [if_neg h10]
      have hge : ¬n < 10 := by omega
      have hlt : n / 10 < fuel :=
        Nat.lt_of_lt_of_le (Nat.div_lt_self (by omega) (by omega)) (by omega)
      rw [ih (n / 10) (Nat.digitChar (n % 10) :: ds) hlt]
      conv_rhs => rw [natDigits]
      rw [dif_neg hge]
      simp

/-- `Nat.repr` renders exactly the structural digit list. -/
theorem repr_data_eq_natDigits (n : Nat) : (Nat.repr n).data = natDigits n := by
  show (Nat.toDigits 10 n).asString.data = natDigits n
  rw [Nat.toDigits, toDigitsCore_eq_natDigits (n + 1) n [] (Nat.lt_succ_self n)]
  simp [List.asString]

/-- Digit characters for values below ten are decimal digits. -/
theorem digitChar_isDigit (d : Nat) (h : d < 10) : (Nat.digitChar d).isDigit = true := by
  interval_cases d <;> decide

/-- Every character of the structural digit list is a decimal digit. -/
theorem natDigits_isDigit (n : Nat) : ∀ c ∈ natDigits n, c.isDigit = true := by
  induction n using Nat.strong_induction_on with
  | _ n ih =>
    intro c hc
    by_cases h : n < 10
    · rw [natDigits, dif_pos h] at hc
      simp only [List.mem_singleton] at hc
      subst hc
      exact digitChar_isDigit n h
    · rw [natDigits, dif_neg h] at hc
      rcases List.mem_append.mp hc with hl | hr
      · exact ih (n / 10) (Nat.div_lt_self (by omega) (by omega)) c hl
      · simp only [List.mem_singleton] at hr
        subst hr
        exact digitChar_isDigit _ (Nat.mod_lt n (by omega))

/-- The decimal value of a digit character (48 is the code of the zero
digit). -/
theorem digitChar_toNat (d : Nat) (h : d < 10) :
    (Nat.digitChar d).toNat - 48 = d := by
  interval_cases d <;> decide

/-- Folding the digit valuation over the structural digit list recovers the
number (with a positional accumulator). -/
theorem natDigits_foldl (n : Nat) : ∀ acc : Nat,
    (natDigits n).foldl (fun acc c => acc * 10 + (c.toNat - 48)) acc =
      acc * 10 ^ (natDigits n).length + n := by
  induction n using Nat.strong_induction_on with
  | _ n ih =>
    intro acc
    by_cases h : n < 10
    · rw [natDigits, dif_pos h]
      simp [digitChar_toNat n h]
    · rw [natDigits, dif_neg h]
      rw [List.foldl_append]
      rw [ih (n / 10) (Nat.div_lt_self (by omega) (by omega)) acc]
      simp only [List.foldl_cons, List.foldl_nil, List.length_append, List.length_singleton]
      rw [digitChar_toNat _ (Nat.mod_lt n (by omega))]
      rw [pow_succ]
      have := Nat.div_add_mod n 10
      ring_nf
      omega

/-- The structural digit list determines the number. -/
theorem natDigits_injective (m n : Nat) (h : natDigits m = natDigits n) : m = n := by
  have hm := natDigits_foldl m 0
  have hn := natDigits_foldl n 0
  rw [h] at hm
  rw [hm] at hn
  omega

/-- Helper: `takeWhile` consumes an all-satisfying block up to the first
failing separator. -/
theorem takeWhile_append_stop {p : Char → Bool} (as : List Char) (b : Char)
    (bs : List Char) (hall : ∀ a ∈ as, p a = true) (hb : p b = false) :
    (as ++ b :: bs).takeWhile p = as := by
  induction as with
  | nil => simp [List.takeWhile_cons, hb]
  | cons a as ih =>
    rw [List.cons_append, List.takeWhile_cons, hall a (by simp), if_pos rfl]
    exact congrArg (List.cons a) (ih (fun x hx => hall x (by simp [hx])))

/-- Helper: an underscore-separated all-digit tail is determined by the
whole list. -/
theorem underscore_tail_eq (xs ys ds es : List Char)
    (hds : ∀ c ∈ ds, c.isDigit = true) (hes : ∀ c ∈ es, c.isDigit = true)
    (h : xs ++ '_' :: ds = ys ++ '_' :: es) : ds = es := by
  have hrev := congrArg List.reverse h
  simp only [List.reverse_append, List.reverse_cons] at hrev
  have h1 : ds.reverse ++ '_' :: xs.reverse = es.reverse ++ '_' :: ys.reverse := by
    simpa [List.append_assoc] using hrev
  have hds2 : ∀ c ∈ ds.reverse, c.isDigit = true := fun c hc =>
    hds c (List.mem_reverse.mp hc)
  have hes2 : ∀ c ∈ es.reverse, c.isDigit = true := fun c hc =>
    hes c (List.mem_reverse.mp hc)
  have ht1 := takeWhile_append_stop ds.reverse '_' xs.reverse hds2 (by decide)
  have ht2 := takeWhile_append_stop es.reverse '_' ys.reverse hes2 (by decide)
  have : ds.reverse = es.reverse := by rw [← ht1, ← ht2, h1]
  simpa using congrArg List.reverse this

/-- Operator-id strings of the planner's shape agree only when their
trailing counters agree. -/
theorem operator_id_count_inj (s₁ s₂ : String) (m n : Nat)
    (h : s₁ ++ "_" ++ Nat.repr m = s₂ ++ "_" ++ Nat.repr n) : m = n := by
  have hdata := congrArg String.data h
  simp only [String.data_append] at hdata
  simp only [List.append_assoc, List.singleton_append] at hdata
  have := underscore_tail_eq s₁.data s₂.data (Nat.repr m).data (Nat.repr n).data
    (by rw [repr_data_eq_natDigits]; exact natDigits_isDigit m)
    (by rw [repr_data_eq_natDigits]; exact natDigits_isDigit n) hdata
  rw [repr_data_eq_natDigits, repr_data_eq_natDigits] at this
  exact natDigits_injective m n this

/-! ## Shape of each translation arm -/

/-- The `ConnectorSource` node inserted for a scan, as a function of the
connector configuration and the insertion-time node count. -/
def sourceNodeOf (cfg : ConnectorOp) (n : Nat) : LogicalNode :=
  { operator_id := "source_" ++ Nat.repr n
    description := cfg.description
    operator_name := .ConnectorSource
    operator_config := .connectorOp cfg
    parallelism := 1 }

/-- The `Watermark` node inserted for a scan, as a function of the
insertion-time node count. -/
def watermarkNodeOf (n : Nat) : LogicalNode :=
  { operator_id := "watermark_" ++ Nat.repr n
    description := "watermark"
    operator_name := .Watermark
    parallelism := 1
    operator_config := .watermark
      { period_micros := 1000000, max_lateness_micros := 0, idle_time_micros := none } }

/-- Helper: a successful table-scan translation appends exactly the source
and watermark nodes, one Forward edge between them carrying the scan's
schema and projection, and maps the input node to the watermark. -/
theorem processTableScan_ok_shape (p : Planner) (st : PlanState) (idx : Nat)
    (lp : DFLogicalPlan) (st2 : PlanState) (nn : Nat)
    (h : processTableScan p st idx lp = .ok (st2, nn)) :
    ∃ tn ps proj cn sql_source,
      lp = .tableScan tn ps proj ∧
      p.get_table tn = some (.ConnectorTable cn) ∧
      cn.sql_source = .ok sql_source ∧
      st2.program_graph.nodes = st.program_graph.nodes ++
        [sourceNodeOf sql_source.config st.program_graph.nodes.length,
         watermarkNodeOf (st.program_graph.nodes.length + 1)] ∧
      st2.program_graph.edges = st.program_graph.edges ++
        [(st.program_graph.nodes.length, st.program_graph.nodes.length + 1,
          { edge_type := .Forward, schema := ps, projection := proj })] ∧
      st2.node_mapping = mapInsert st.node_mapping idx (st.program_graph.nodes.length + 1) ∧
      nn = st.program_graph.nodes.length + 1 := by
  unfold processTableScan at h
  rcases lp with ⟨tn, ps, proj⟩ | ⟨inp, ge, ae, s⟩ | ⟨tag, s⟩
  · dsimp only at h
    rcases hgt : p.get_table tn with _ | tbl <;> rw [hgt] at h
    · exact absurd h (by simp)
    rcases tbl with ⟨cn⟩ | ⟨tag⟩
    · dsimp only [bind, Except.bind, liftAnyhow] at h
      rcases hs : cn.sql_source with e | ss <;> rw [hs] at h
      · exact absurd h (by simp)
      · dsimp only [ProgramGraph.add_node, ProgramGraph.add_edge,
          ProgramGraph.node_count] at h
        simp only [Except.ok.injEq, Prod.mk.injEq] at h
        obtain ⟨hst2, hnn⟩ := h
        refine ⟨tn, ps, proj, cn, ss, rfl, hgt, hs, ?_, ?_, ?_, ?_⟩
        · rw [← hst2]
          simp [sourceNodeOf, watermarkNodeOf]
        · rw [← hst2]
          simp
        · rw [← hst2]
          simp [mapInsert]
        · rw [← hnn]
          simp
    · exact absurd h (by simp)
  · exact absurd h (by simp)
  · exact absurd h (by simp)

/-- Helper: a successful value-calculation translation appends one
`ArrowValue` node and no edge, and maps the input node to it. -/
theorem processValueCalculation_ok_shape (p : Planner) (st : PlanState) (idx : Nat)
    (lp : DFLogicalPlan) (st2 : PlanState) (nn : Nat)
    (h : processValueCalculation p st idx lp = .ok (st2, nn)) :
    ∃ plan,
      p.create_physical_plan lp = .ok plan ∧
      st2.program_graph.nodes = st.program_graph.nodes ++
        [{ operator_id := "value_" ++ Nat.repr st.program_graph.nodes.length
           description := "arrow_value<" ++ "tmp" ++ ">"
           operator_name := .ArrowValue
           operator_config := .value { name := "tmp", physical_plan := plan }
           parallelism := 1 }] ∧
      st2.program_graph.edges = st.program_graph.edges ∧
      st2.node_mapping = mapInsert st.node_mapping idx st.program_graph.nodes.length ∧
      nn = st.program_graph.nodes.length := by
  unfold processValueCalculation at h
  simp only [bind, Except.bind, pure, Except.pure] at h
  rcases hpp : p.create_physical_plan lp with e | plan <;> rw [hpp] at h
  · exact absurd h (by simp)
  · dsimp only [ProgramGraph.add_node, ProgramGraph.node_count] at h
    simp only [Except.ok.injEq, Prod.mk.injEq] at h
    obtain ⟨hst2, hnn⟩ := h
    exact ⟨plan, rfl, by rw [← hst2], by rw [← hst2], by rw [← hst2], hnn.symm⟩

/-- Helper: a successful key-calculation translation appends one `ArrowKey`
node carrying the key columns and no edge, and maps the input node to
it. -/
theorem processKeyCalculation_ok_shape (p : Planner) (st : PlanState) (idx : Nat)
    (lp : DFLogicalPlan) (key_columns : List Nat) (st2 : PlanState) (nn : Nat)
    (h : processKeyCalculation p st idx lp key_columns = .ok (st2, nn)) :
    ∃ plan,
      p.create_physical_plan lp = .ok plan ∧
      st2.program_graph.nodes = st.program_graph.nodes ++
        [{ operator_id := "key_" ++ Nat.repr st.program_graph.nodes.length
           operator_name := .ArrowKey
           operator_config := .key
             { name := "tmp", physical_plan := plan, key_fields := key_columns }
           description := "ArrowKey<" ++ "tmp" ++ ">"
           parallelism := 1 }] ∧
      st2.program_graph.edges = st.program_graph.edges ∧
      st2.node_mapping = mapInsert st.node_mapping idx st.program_graph.nodes.length ∧
      nn = st.program_graph.nodes.length := by
  unfold processKeyCalculation at h
  simp only [bind, Except.bind, pure, Except.pure] at h
  rcases hpp : p.create_physical_plan lp with e | plan <;> rw [hpp] at h
  · exact absurd h (by simp)
  · dsimp only [ProgramGraph.add_node, ProgramGraph.node_count] at h
    simp only [Except.ok.injEq, Prod.mk.injEq] at h
    obtain ⟨hst2, hnn⟩ := h
    exact ⟨plan, rfl, by rw [← hst2], by rw [← hst2], by rw [← hst2], hnn.symm⟩

/-- Helper: a successful sink translation appends one `ConnectorSink` node
and no edge, and maps the input node to it. -/
theorem processSink_ok_shape (st : PlanState) (idx : Nat) (connector_op : ConnectorOp)
    (st2 : PlanState) (nn : Nat)
    (h : processSink st idx connector_op = .ok (st2, nn)) :
    st2.program_graph.nodes = st.program_graph.nodes ++
      [{ operator_id := "sink_" ++ Nat.repr st.program_graph.nodes.length
         operator_name := .ConnectorSink
         operator_config := .connectorOp connector_op
         parallelism := 1
         description := connector_op.description }] ∧
    st2.program_graph.edges = st.program_graph.edges ∧
    st2.node_mapping = mapInsert st.node_mapping idx st.program_graph.nodes.length ∧
    nn = st.program_graph.nodes.length := by
  unfold processSink at h
  dsimp only [ProgramGraph.add_node, ProgramGraph.node_count] at h
  simp only [Except.ok.injEq, Prod.mk.injEq] at h
  obtain ⟨hst2, hnn⟩ := h
  exact ⟨by rw [← hst2], by rw [← hst2], by rw [← hst2], hnn.symm⟩

/-- Helper: a successful aggregate translation appends one node - the
tumbling-window node with the node count appended to its operator id - and
no edge, and maps the input node to it. -/
theorem processAggregateCalculation_ok_shape (p : Planner) (st : PlanState) (idx : Nat)
    (agg : AggregateCalculation) (st2 : PlanState) (nn : Nat)
    (h : processAggregateCalculation p st idx agg = .ok (st2, nn)) :
    ∃ w ln0,
      agg.window = .tumbling w ∧
      p.tumbling_window_config agg = .ok ln0 ∧
      st2.program_graph.nodes = st.program_graph.nodes ++
        [{ ln0 with operator_id :=
            ln0.operator_id ++ "_" ++ Nat.repr st.program_graph.nodes.length }] ∧
      st2.program_graph.edges = st.program_graph.edges ∧
      st2.node_mapping = mapInsert st.node_mapping idx st.program_graph.nodes.length ∧
      nn = st.program_graph.nodes.length := by
  unfold processAggregateCalculation at h
  simp only [bind, Except.bind, pure, Except.pure] at h
  rcases hts : agg.agg_input with ⟨tn, ps, proj⟩ | ⟨inp, ge, ae, s⟩ | ⟨tag, s⟩ <;>
    rw [hts] at h <;> dsimp only at h
  case _ =>
    rcases hwin : agg.window with ⟨w⟩ | ⟨w, s⟩ | _ | ⟨g⟩ <;> rw [hwin] at h <;>
      dsimp only at h
    case _ =>
      rcases hcfg : p.tumbling_window_config agg with e | ln0 <;> rw [hcfg] at h <;>
        dsimp only at h
      · exact absurd h (by simp)
      · dsimp only [ProgramGraph.add_node, ProgramGraph.node_count] at h
        simp only [Except.ok.injEq, Prod.mk.injEq] at h
        obtain ⟨hst2, hnn⟩ := h
        exact ⟨w, ln0, rfl, rfl, by rw [← hst2], by rw [← hst2], by rw [← hst2], hnn.symm⟩
    all_goals exact absurd h (by simp)
  all_goals exact absurd h (by simp)

/-! ## Planner-walk invariants -/

/-- `mapGet` after `mapInsert`: the freshest binding wins. -/
theorem mapGet_insert (m : List (Nat × Nat)) (k v k' : Nat) :
    mapGet (mapInsert m k v) k' = if k == k' then some v else mapGet m k' := by
  by_cases h : (k == k') = true
  · rw [if_pos h]
    unfold mapGet mapInsert
    rw [List.find?]
    dsimp only
    rw [h]
    rfl
  · rw [if_neg h]
    unfold mapGet mapInsert
    rw [List.find?]
    dsimp only
    rw [Bool.not_eq_true] at h
    rw [h]

/-- Every edge source index refers to an existing node. -/
def edgesBounded (st : PlanState) : Prop :=
  ∀ x ∈ st.program_graph.edges, x.1 < st.program_graph.nodes.length

/-- Every mapped output index refers to an existing node that is not a
`ConnectorSource` (table scans map to their watermark). -/
def mappingOk (st : PlanState) : Prop :=
  ∀ k v, mapGet st.node_mapping k = some v →
    ∃ nd, st.program_graph.nodes[v]? = some nd ∧ nd.operator_name ≠ .ConnectorSource

/-- Every `ConnectorSource` node has exactly one outgoing edge, whose
target is a `Watermark` node. -/
def sourcesOk (st : PlanState) : Prop :=
  ∀ i nd, st.program_graph.nodes[i]? = some nd → nd.operator_name = .ConnectorSource →
    ∃ t e wm, st.program_graph.edges.filter (fun x => x.1 == i) = [(i, t, e)] ∧
      st.program_graph.nodes[t]? = some wm ∧ wm.operator_name = .Watermark

/-- The id prefix recorded for each operator kind. -/
def idPrefixOk (nd : LogicalNode) (pre : String) : Prop :=
  match nd.operator_name with
  | .ConnectorSource => pre = "source"
  | .Watermark => pre = "watermark"
  | .ArrowValue => pre = "value"
  | .ArrowKey => pre = "key"
  | .ConnectorSink => pre = "sink"
  | .TumblingWindowAggregate => ∃ w, pre = "TumblingWindow<" ++ durationDebug w ++ ">"

/-- Every node's operator id is its kind prefix, an underscore, and the
node count at its insertion (= its index). -/
def idsOk (st : PlanState) : Prop :=
  ∀ i nd, st.program_graph.nodes[i]? = some nd →
    ∃ pre, nd.operator_id = pre ++ "_" ++ Nat.repr i ∧ idPrefixOk nd pre

/-- The conjunction of the walk invariants. -/
def planInv (st : PlanState) : Prop :=
  edgesBounded st ∧ mappingOk st ∧ sourcesOk st ∧ idsOk st

/-- Lookup in a one-element extension of a node arena. -/
theorem getElem?_append_singleton {α : Type} (l : List α) (a : α) (i : Nat) (x : α)
    (h : (l ++ [a])[i]? = some x) :
    (i < l.length ∧ l[i]? = some x) ∨ (i = l.length ∧ x = a) := by
  by_cases hi : i < l.length
  · rw [List.getElem?_append, if_pos hi] at h
    exact Or.inl ⟨hi, h⟩
  · rw [List.getElem?_append, if_neg hi] at h
    have hlen : i - l.length < 1 := by
      rcases List.getElem?_eq_some.mp h with ⟨hl, _⟩
      simpa using hl
    have : i = l.length := by omega
    subst this
    simp at h
    exact Or.inr ⟨rfl, h.symm⟩

/-- Lookup of an old index is unchanged by appending nodes. -/
theorem getElem?_append_old {α : Type} (l l2 : List α) (i : Nat) (x : α)
    (h : l[i]? = some x) : (l ++ l2)[i]? = some x := by
  have hi : i < l.length := (List.getElem?_eq_some.mp h).1
  rw [List.getElem?_append, if_pos hi]
  exact h

/-- Appending one non-source node with a well-formed id preserves the walk
invariants. -/
theorem planInv_of_append_node (st st2 : PlanState) (idx : Nat) (nd : LogicalNode)
    (pre : String)
    (hnodes : st2.program_graph.nodes = st.program_graph.nodes ++ [nd])
    (hedges : st2.program_graph.edges = st.program_graph.edges)
    (hmap : st2.node_mapping = mapInsert st.node_mapping idx st.program_graph.nodes.length)
    (hname : nd.operator_name ≠ .ConnectorSource)
    (hid : nd.operator_id = pre ++ "_" ++ Nat.repr st.program_graph.nodes.length)
    (hpre : idPrefixOk nd pre)
    (inv : planInv st) : planInv st2 := by
  obtain ⟨invE, invM, invS, invI⟩ := inv
  refine ⟨?_, ?_, ?_, ?_⟩
  · intro x hx
    rw [hedges] at hx
    rw [hnodes]
    have := invE x hx
    simp only [List.length_append, List.length_singleton]
    omega
  · intro k v hkv
    rw [hmap, mapGet_insert] at hkv
    by_cases hk : (idx == k) = true
    · rw [if_pos hk] at hkv
      cases hkv
      refine ⟨nd, ?_, hname⟩
      rw [hnodes]
      exact List.getElem?_concat_length _ _
    · rw [if_neg hk] at hkv
      obtain ⟨nd', hnd', hname'⟩ := invM k v hkv
      exact ⟨nd', by rw [hnodes]; exact getElem?_append_old _ _ _ _ hnd', hname'⟩
  · intro i nd' hnd' hsrc
    rw [hnodes] at hnd'
    rcases getElem?_append_singleton _ _ _ _ hnd' with ⟨hi, hold⟩ | ⟨hi, hnd2⟩
    · obtain ⟨t, e, wm, hfilter, hwm, hwmname⟩ := invS i nd' hold hsrc
      refine ⟨t, e, wm, ?_, ?_, hwmname⟩
      · rw [hedges]
        exact hfilter
      · rw [hnodes]
        exact getElem?_append_old _ _ _ _ hwm
    · subst hnd2
      exact absurd hsrc hname
  · intro i nd' hnd'
    rw [hnodes] at hnd'
    rcases getElem?_append_singleton _ _ _ _ hnd' with ⟨hi, hold⟩ | ⟨hi, hnd2⟩
    · exact invI i nd' hold
    · subst hnd2
      subst hi
      exact ⟨pre, hid, hpre⟩

/-- The table-scan transition (append source and watermark, one forward
edge, map to the watermark) preserves the walk invariants. -/
theorem planInv_of_append_scan (st st2 : PlanState) (idx : Nat) (cfg : ConnectorOp)
    (fw : LogicalEdge)
    (hnodes : st2.program_graph.nodes = st.program_graph.nodes ++
      [sourceNodeOf cfg st.program_graph.nodes.length,
       watermarkNodeOf (st.program_graph.nodes.length + 1)])
    (hedges : st2.program_graph.edges = st.program_graph.edges ++
      [(st.program_graph.nodes.length, st.program_graph.nodes.length + 1, fw)])
    (hmap : st2.node_mapping = mapInsert st.node_mapping idx
      (st.program_graph.nodes.length + 1))
    (inv : planInv st) : planInv st2 := by
  obtain ⟨invE, invM, invS, invI⟩ := inv
  have hlen2 : st2.program_graph.nodes.length = st.program_graph.nodes.length + 2 := by
    rw [hnodes]
    simp
  have hsrcLookup : st2.program_graph.nodes[st.program_graph.nodes.length]? =
      some (sourceNodeOf cfg st.program_graph.nodes.length) := by
    rw [hnodes, List.getElem?_append, if_neg (by omega)]
    simp
  have hwmLookup : st2.program_graph.nodes[st.program_graph.nodes.length + 1]? =
      some (watermarkNodeOf (st.program_graph.nodes.length + 1)) := by
    rw [hnodes, List.getElem?_append, if_neg (by omega)]
    simp
  have holdLookup : ∀ (i : Nat) (x : LogicalNode), st.program_graph.nodes[i]? = some x →
      st2.program_graph.nodes[i]? = some x := by
    intro i x hx
    rw [hnodes]
    exact getElem?_append_old _ _ _ _ hx
  refine ⟨?_, ?_, ?_, ?_⟩
  · intro x hx
    rw [hedges] at hx
    rcases List.mem_append.mp hx with hl | hr
    · have := invE x hl
      omega
    · simp only [List.mem_singleton] at hr
      subst hr
      omega
  · intro k v hkv
    rw [hmap, mapGet_insert] at hkv
    by_cases hk : (idx == k) = true
    · rw [if_pos hk] at hkv
      cases hkv
      exact ⟨watermarkNodeOf (st.program_graph.nodes.length + 1), hwmLookup, by
        simp [watermarkNodeOf]⟩
    · rw [if_neg hk] at hkv
      obtain ⟨nd', hnd', hname'⟩ := invM k v hkv
      exact ⟨nd', holdLookup _ _ hnd', hname'⟩
  · intro i nd' hnd' hsrc
    rw [hnodes] at hnd'
    have hcase : (i < st.program_graph.nodes.length ∧
        st.program_graph.nodes[i]? = some nd') ∨
        (i = st.program_graph.nodes.length ∧
          nd' = sourceNodeOf cfg st.program_graph.nodes.length) ∨
        (i = st.program_graph.nodes.length + 1 ∧
          nd' = watermarkNodeOf (st.program_graph.nodes.length + 1)) := by
      by_cases hi : i < st.program_graph.nodes.length
      · rw [List.getElem?_append, if_pos hi] at hnd'
        exact Or.inl ⟨hi, hnd'⟩
      · rw [List.getElem?_append, if_neg hi] at hnd'
        have hb : i - st.program_graph.nodes.length < 2 := by
          rcases List.getElem?_eq_some.mp hnd' with ⟨hl, _⟩
          simpa using hl
        have hb2 : i - st.program_graph.nodes.length = 0 ∨
            i - st.program_graph.nodes.length = 1 := by omega
        rcases hb2 with h0 | h1
        · have : i = st.program_graph.nodes.length := by omega
          subst this
          simp at hnd'
          exact Or.inr (Or.inl ⟨rfl, hnd'.symm⟩)
        · have : i = st.program_graph.nodes.length + 1 := by omega
          subst this
          simp at hnd'
          exact Or.inr (Or.inr ⟨rfl, hnd'.symm⟩)
    rcases hcase with ⟨hi, hold⟩ | ⟨hi, hnd2⟩ | ⟨hi, hnd2⟩
    · obtain ⟨t, e, wm, hfilter, hwm, hwmname⟩ := invS i nd' hold hsrc
      refine ⟨t, e, wm, ?_, holdLookup _ _ hwm, hwmname⟩
      rw [hedges, List.filter_append, hfilter]
      have : (((st.program_graph.nodes.length,
          st.program_graph.nodes.length + 1, fw) :
          Nat × Nat × LogicalEdge).1 == i) = false := by
        simp only [beq_eq_false_iff_ne]
        omega
      simp [this]
    · subst hi
      refine ⟨st.program_graph.nodes.length + 1, fw,
        watermarkNodeOf (st.program_graph.nodes.length + 1), ?_, hwmLookup, by
          simp [watermarkNodeOf]⟩
      rw [hedges, List.filter_append]
      have hold0 : st.program_graph.edges.filter
          (fun x => x.1 == st.program_graph.nodes.length) = [] := by
        rw [List.filter_eq_nil_iff]
        intro x hx
        have := invE x hx
        simp only [beq_iff_eq]
        omega
      rw [hold0]
      simp
    · subst hnd2
      exact absurd hsrc (by simp [watermarkNodeOf])
  · intro i nd' hnd'
    rw [hnodes] at hnd'
    by_cases hi : i < st.program_graph.nodes.length
    · rw [List.getElem?_append, if_pos hi] at hnd'
      exact invI i nd' hnd'
    · rw [List.getElem?_append, if_neg hi] at hnd'
      have hb : i - st.program_graph.nodes.length < 2 := by
        rcases List.getElem?_eq_some.mp hnd' with ⟨hl, _⟩
        simpa using hl
      have hb2 : i - st.program_graph.nodes.length = 0 ∨
          i - st.program_graph.nodes.length = 1 := by omega
      rcases hb2 with h0 | h1
      · have : i = st.program_graph.nodes.length := by omega
        subst this
        simp only [show st.program_graph.nodes.length -
          st.program_graph.nodes.length = 0 from by omega] at hnd'
        simp at hnd'
        subst hnd'
        exact ⟨"source", rfl, by simp [idPrefixOk, sourceNodeOf]⟩
      · have : i = st.program_graph.nodes.length + 1 := by omega
        subst this
        simp at hnd'
        subst hnd'
        exact ⟨"watermark", rfl, by simp [idPrefixOk, watermarkNodeOf]⟩

/-- Helper: the edge-rewiring fold leaves nodes and mapping unchanged and
appends only edges whose source is a mapped output index and whose target
is the freshly translated node. -/
theorem edgesFold_ok_shape (new_node : Nat) (l : List (Nat × Nat × DataFusionEdge)) :
    ∀ (st st' : PlanState), l.foldlM (addEdgeStep new_node) st = .ok st' →
      st'.node_mapping = st.node_mapping ∧
      st'.program_graph.nodes = st.program_graph.nodes ∧
      ∃ news, st'.program_graph.edges = st.program_graph.edges ++ news ∧
        ∀ x ∈ news, ∃ u src w, x = (src, new_node, w) ∧
          mapGet st.node_mapping u = some src := by
  induction l with
  | nil =>
    intro st st' h
    rw [List.foldlM_nil] at h
    cases h
    exact ⟨rfl, rfl, [], by simp, by simp⟩
  | cons e l ih =>
    intro st st' h
    rw [List.foldlM_cons] at h
    unfold addEdgeStep at h
    rcases hg : mapGet st.node_mapping e.1 with _ | src <;> rw [hg] at h <;>
      simp only [bind, Except.bind] at h
    · exact absurd h (by simp)
    · obtain ⟨hm, hn, news, he, hnews⟩ := ih _ st' h
      simp only [ProgramGraph.add_edge] at hm hn he
      refine ⟨hm, hn, (src, new_node, e.2.2.toLogicalEdge) :: news, ?_, ?_⟩
      · rw [he]
        simp
      · intro x hx
        rcases List.mem_cons.mp hx with hx1 | hx2
        · exact ⟨e.1, src, e.2.2.toLogicalEdge, hx1, hg⟩
        · obtain ⟨u, src', w, hxw, hgu⟩ := hnews x hx2
          exact ⟨u, src', w, hxw, hgu⟩

/-- Rewiring incoming edges preserves the walk invariants. -/
theorem planInv_addIncomingEdges (rewriter : QueryToGraphVisitor) (idx nn : Nat)
    (st st' : PlanState) (h : addIncomingEdges rewriter idx nn st = .ok st')
    (inv : planInv st) : planInv st' := by
  obtain ⟨invE, invM, invS, invI⟩ := inv
  obtain ⟨hm, hn, news, he, hnews⟩ := edgesFold_ok_shape nn _ st st' h
  have hnewsSrc : ∀ x ∈ news, x.1 < st.program_graph.nodes.length ∧
      ∃ nd, st.program_graph.nodes[x.1]? = some nd ∧ nd.operator_name ≠ .ConnectorSource := by
    intro x hx
    obtain ⟨u, src, w, hxw, hgu⟩ := hnews x hx
    obtain ⟨nd, hnd, hname⟩ := invM u src hgu
    subst hxw
    exact ⟨(List.getElem?_eq_some.mp hnd).1, nd, hnd, hname⟩
  refine ⟨?_, ?_, ?_, ?_⟩
  · intro x hx
    rw [he] at hx
    rw [hn]
    rcases List.mem_append.mp hx with hl | hr
    · exact invE x hl
    · exact (hnewsSrc x hr).1
  · intro k v hkv
    rw [hm] at hkv
    obtain ⟨nd, hnd, hname⟩ := invM k v hkv
    exact ⟨nd, by rw [hn]; exact hnd, hname⟩
  · intro i nd hnd hsrc
    rw [hn] at hnd
    obtain ⟨t, e, wm, hfilter, hwm, hwmname⟩ := invS i nd hnd hsrc
    refine ⟨t, e, wm, ?_, by rw [hn]; exact hwm, hwmname⟩
    rw [he, List.filter_append, hfilter]
    have hnil : news.filter (fun x => x.1 == i) = [] := by
      rw [List.filter_eq_nil_iff]
      intro x hx
      obtain ⟨_, nd', hnd', hname'⟩ := hnewsSrc x hx
      simp only [beq_iff_eq]
      intro hxi
      subst hxi
      rw [hnd] at hnd'
      cases hnd'
      exact hname' hsrc
    rw [hnil]
    simp
  · intro i nd hnd
    rw [hn] at hnd
    exact invI i nd hnd

/-- One walk iteration preserves the invariants. -/
theorem processNode_preserves_planInv (p : Planner) (rewriter : QueryToGraphVisitor)
    (st : PlanState) (idx : Nat) (st' : PlanState)
    (h : processNode p rewriter st idx = .ok st') (inv : planInv st) : planInv st' := by
  unfold processNode at h
  simp only [bind, Except.bind, pure, Except.pure] at h
  rcases hext : rewriter.nodes[idx]? with _ | ext <;> rw [hext] at h
  · exact absurd h (by simp)
  rcases ext with ⟨lp⟩ | ⟨lp⟩ | ⟨lp, kc⟩ | ⟨agg⟩ | ⟨nm, cop⟩ <;> dsimp only at h
  · rcases harm : processTableScan p st idx lp with e | ⟨st2, nn⟩ <;> rw [harm] at h <;>
      dsimp only at h
    · exact absurd h (by simp)
    · obtain ⟨tn, ps, proj, cn, ss, _, _, _, hnodes, hedges, hmap, hnn⟩ :=
        processTableScan_ok_shape p st idx lp st2 nn harm
      exact planInv_addIncomingEdges rewriter idx nn st2 st' h
        (planInv_of_append_scan st st2 idx ss.config _ hnodes hedges hmap inv)
  · rcases harm : processValueCalculation p st idx lp with e | ⟨st2, nn⟩ <;>
      rw [harm] at h <;> dsimp only at h
    · exact absurd h (by simp)
    · obtain ⟨plan, _, hnodes, hedges, hmap, hnn⟩ :=
        processValueCalculation_ok_shape p st idx lp st2 nn harm
      refine planInv_addIncomingEdges rewriter idx nn st2 st' h
        (planInv_of_append_node st st2 idx _ "value" hnodes hedges hmap
          (by simp) rfl (by simp [idPrefixOk]) inv)
  · rcases harm : processKeyCalculation p st idx lp kc with e | ⟨st2, nn⟩ <;>
      rw [harm] at h <;> dsimp only at h
    · exact absurd h (by simp)
    · obtain ⟨plan, _, hnodes, hedges, hmap, hnn⟩ :=
        processKeyCalculation_ok_shape p st idx lp kc st2 nn harm
      refine planInv_addIncomingEdges rewriter idx nn st2 st' h
        (planInv_of_append_node st st2 idx _ "key" hnodes hedges hmap
          (by simp) rfl (by simp [idPrefixOk]) inv)
  · rcases harm : processAggregateCalculation p st idx agg with e | ⟨st2, nn⟩ <;>
      rw [harm] at h <;> dsimp only at h
    · exact absurd h (by simp)
    · obtain ⟨w, ln0, hwin, hcfg, hnodes, hedges, hmap, hnn⟩ :=
        processAggregateCalculation_ok_shape p st idx agg st2 nn harm
      obtain ⟨part, P, outS, binning, _, _, _, _, hln⟩ :=
        tumbling_window_config_ok_spec p agg w hwin ln0 hcfg
      subst hln
      refine planInv_addIncomingEdges rewriter idx nn st2 st' h
        (planInv_of_append_node st st2 idx _
          ("TumblingWindow<" ++ durationDebug w ++ ">") hnodes hedges hmap
          (by simp) rfl (by simp [idPrefixOk]; exact ⟨w, rfl⟩) inv)
  · rcases harm : processSink st idx cop with e | ⟨st2, nn⟩ <;>
      rw [harm] at h <;> dsimp only at h
    · exact absurd h (by simp)
    · obtain ⟨hnodes, hedges, hmap, hnn⟩ := processSink_ok_shape st idx cop st2 nn harm
      refine planInv_addIncomingEdges rewriter idx nn st2 st' h
        (planInv_of_append_node st st2 idx _ "sink" hnodes hedges hmap
          (by simp) rfl (by simp [idPrefixOk]) inv)

/-- The whole walk preserves the invariants. -/
theorem foldlM_processNode_planInv (p : Planner) (rewriter : QueryToGraphVisitor)
    (l : List Nat) : ∀ st st', l.foldlM (processNode p rewriter) st = .ok st' →
      planInv st → planInv st' := by
  induction l with
  | nil =>
    intro st st' h inv
    rw [List.foldlM_nil] at h
    cases h
    exact inv
  | cons i l ih =>
    intro st st' h inv
    rw [List.foldlM_cons] at h
    simp only [bind, Except.bind] at h
    rcases hstep : processNode p rewriter st i with e | st1 <;> rw [hstep] at h
    · exact absurd h (by simp)
    · exact ih st1 st' h (processNode_preserves_planInv p rewriter st i st1 hstep inv)

/-- The invariants hold at the initial empty state. -/
theorem planInv_init :
    planInv { program_graph := { nodes := [], edges := [] }, node_mapping := [] } := by
  refine ⟨?_, ?_, ?_, ?_⟩
  · intro x hx
    simp at hx
  · intro k v hkv
    simp [mapGet] at hkv
  · intro i nd hnd _
    simp at hnd
  · intro i nd hnd
    simp at hnd

/-- A successful `get_arrow_program` exposes the final walk state. -/
theorem get_arrow_program_ok_graph (p : Planner) (rewriter : QueryToGraphVisitor)
    (out : CompiledSql) (h : p.get_arrow_program rewriter = .ok out) :
    ∃ st', rewriter.topo_order.foldlM (processNode p rewriter)
      { program_graph := { nodes := [], edges := [] }, node_mapping := [] } = .ok st' ∧
      out.program.graph = st'.program_graph := by
  unfold Planner.get_arrow_program Planner.get_arrow_programFrom at h
  simp only [bind, Except.bind, pure, Except.pure] at h
  rcases hfold : rewriter.topo_order.foldlM (processNode p rewriter)
      { program_graph := { nodes := [], edges := [] }, node_mapping := [] } with e | st1 <;>
    rw [hfold] at h
  · exact absurd h (by simp)
  · simp only [Except.ok.injEq] at h
    subst h
    exact ⟨st1, rfl, rfl⟩

/-- The invariants hold of every successfully compiled program. -/
theorem get_arrow_program_planInv (p : Planner) (rewriter : QueryToGraphVisitor)
    (out : CompiledSql) (h : p.get_arrow_program rewriter = .ok out) :
    ∃ st', out.program.graph = st'.program_graph ∧ planInv st' := by
  obtain ⟨st', hfold, hgraph⟩ := get_arrow_program_ok_graph p rewriter out h
  exact ⟨st', hgraph, foldlM_processNode_planInv p rewriter _ _ st' hfold planInv_init⟩

/-- The empty initial walk state. -/
def emptyPlanState : PlanState :=
  { program_graph := { nodes := [], edges := [] }, node_mapping := [] }

/-- **C3**: every translated `TableScan` creates exactly two output nodes -
a `ConnectorSource` with parallelism 1 carrying the connector configuration
and a `Watermark` with periodic configuration `period_micros = 1000000`,
`max_lateness_micros = 0` and no idle timeout - joined by a single Forward
edge carrying the scan's projected schema and projection list, with the
input node mapped to the watermark; consequently, in every successfully
compiled program each `ConnectorSource` node has exactly one outgoing edge
and its target is a `Watermark`. -/
theorem C3_table_scan_translation :
    (∀ (p : Planner) (st : PlanState) (idx : Nat) (lp : DFLogicalPlan)
        (st2 : PlanState) (nn : Nat),
      processTableScan p st idx lp = .ok (st2, nn) →
      ∃ tn ps proj cn sql_source,
        lp = .tableScan tn ps proj ∧
        p.get_table tn = some (.ConnectorTable cn) ∧
        cn.sql_source = .ok sql_source ∧
        st2.program_graph.nodes = st.program_graph.nodes ++
          [{ operator_id := "source_" ++ Nat.repr st.program_graph.nodes.length
             description := sql_source.config.description
             operator_name := .ConnectorSource
             operator_config := .connectorOp sql_source.config
             parallelism := 1 },
           { operator_id := "watermark_" ++ Nat.repr (st.program_graph.nodes.length + 1)
             description := "watermark"
             operator_name := .Watermark
             operator_config := .watermark
               { period_micros := 1000000, max_lateness_micros := 0,
                 idle_time_micros := none }
             parallelism := 1 }] ∧
        st2.program_graph.edges = st.program_graph.edges ++
          [(st.program_graph.nodes.length, st.program_graph.nodes.length + 1,
            { edge_type := .Forward, schema := ps, projection := proj })] ∧
        mapGet st2.node_mapping idx = some (st.program_graph.nodes.length + 1) ∧
        nn = st.program_graph.nodes.length + 1) ∧
    (∀ (p : Planner) (rewriter : QueryToGraphVisitor) (out : CompiledSql),
      p.get_arrow_program rewriter = .ok out →
      ∀ i nd, out.program.graph.nodes[i]? = some nd →
        nd.operator_name = .ConnectorSource →
        ∃ t e wm,
          out.program.graph.edges.filter (fun x => x.1 == i) = [(i, t, e)] ∧
          out.program.graph.nodes[t]? = some wm ∧
          wm.operator_name = .Watermark) := by
  constructor
  · intro p st idx lp st2 nn h
    obtain ⟨tn, ps, proj, cn, ss, hlp, hgt, hs, hnodes, hedges, hmap, hnn⟩ :=
      processTableScan_ok_shape p st idx lp st2 nn h
    refine ⟨tn, ps, proj, cn, ss, hlp, hgt, hs, ?_, hedges, ?_, hnn⟩
    · simpa [sourceNodeOf, watermarkNodeOf] using hnodes
    · rw [hmap, mapGet_insert, if_pos (by simp)]
  · intro p rewriter out hok i nd hnd hsrc
    obtain ⟨st', hgraph, inv⟩ := get_arrow_program_planInv p rewriter out hok
    rw [hgraph] at hnd ⊢
    exact inv.2.2.1 i nd hnd hsrc

/-- The concrete scan translation used as the C3 witness. -/
def sampleScanStep : PlanState × Nat :=
  match processTableScan samplePlanner emptyPlanState 0 sampleScanPlan with
  | .ok r => r
  | .error _ => (emptyPlanState, 0)

/-- Witness for C3: the sample scan translation and the compiled
scan-to-sink program's single source. -/
theorem C3_table_scan_translation_witness :
    (∃ tn ps proj cn sql_source,
      sampleScanPlan = .tableScan tn ps proj ∧
      samplePlanner.get_table tn = some (.ConnectorTable cn) ∧
      cn.sql_source = .ok sql_source ∧
      sampleScanStep.1.program_graph.nodes = emptyPlanState.program_graph.nodes ++
        [{ operator_id := "source_" ++ Nat.repr emptyPlanState.program_graph.nodes.length
           description := sql_source.config.description
           operator_name := .ConnectorSource
           operator_config := .connectorOp sql_source.config
           parallelism := 1 },
         { operator_id :=
             "watermark_" ++ Nat.repr (emptyPlanState.program_graph.nodes.length + 1)
           description := "watermark"
           operator_name := .Watermark
           operator_config := .watermark
             { period_micros := 1000000, max_lateness_micros := 0,
               idle_time_micros := none }
           parallelism := 1 }] ∧
      sampleScanStep.1.program_graph.edges = emptyPlanState.program_graph.edges ++
        [(emptyPlanState.program_graph.nodes.length,
          emptyPlanState.program_graph.nodes.length + 1,
          { edge_type := .Forward, schema := ps, projection := proj })] ∧
      mapGet sampleScanStep.1.node_mapping 0 =
        some (emptyPlanState.program_graph.nodes.length + 1) ∧
      sampleScanStep.2 = emptyPlanState.program_graph.nodes.length + 1) ∧
    (∃ t e wm,
      sampleCompiled.program.graph.edges.filter (fun x => x.1 == 0) = [(0, t, e)] ∧
      sampleCompiled.program.graph.nodes[t]? = some wm ∧
      wm.operator_name = .Watermark) :=
  ⟨C3_table_scan_translation.1 samplePlanner emptyPlanState 0 sampleScanPlan
      sampleScanStep.1 sampleScanStep.2 rfl,
   C3_table_scan_translation.2 samplePlanner sampleScanSinkGraph sampleCompiled rfl
      0 (sourceNodeOf sampleConnectorOp 0) rfl rfl⟩

/-- **C6**: in every successfully compiled program, each node's operator id
is `<prefix>_<count>` where `count` is the node count immediately before
its insertion (= its index) and the prefix is `source`, `watermark`,
`value`, `key` or `sink` by kind, or `TumblingWindow<<duration>>` for
tumbling window aggregates; consequently operator ids are pairwise
distinct. -/
theorem C6_operator_ids (p : Planner) (rewriter : QueryToGraphVisitor)
    (out : CompiledSql) (hok : p.get_arrow_program rewriter = .ok out) :
    (∀ i nd, out.program.graph.nodes[i]? = some nd →
      ∃ pre, nd.operator_id = pre ++ "_" ++ Nat.repr i ∧ idPrefixOk nd pre) ∧
    (out.program.graph.nodes.map (fun nd => nd.operator_id)).Nodup := by
  obtain ⟨st', hgraph, inv⟩ := get_arrow_program_planInv p rewriter out hok
  have hids : idsOk st' := inv.2.2.2
  constructor
  · intro i nd hnd
    rw [hgraph] at hnd
    exact hids i nd hnd
  · rw [hgraph]
    refine List.pairwise_iff_getElem.mpr ?_
    intro i j hi hj hij heq
    have hi' : i < st'.program_graph.nodes.length := by simpa using hi
    have hj' : j < st'.program_graph.nodes.length := by simpa using hj
    rw [List.getElem_map, List.getElem_map] at heq
    obtain ⟨pi, hpi, _⟩ := hids i _ (List.getElem?_eq_getElem hi')
    obtain ⟨pj, hpj, _⟩ := hids j _ (List.getElem?_eq_getElem hj')
    rw [hpi, hpj] at heq
    exact absurd (operator_id_count_inj _ _ _ _ heq) (by omega)

/-- Witness for C6 at the compiled scan-to-sink program. -/
theorem C6_operator_ids_witness :
    (∀ i nd, sampleCompiled.program.graph.nodes[i]? = some nd →
      ∃ pre, nd.operator_id = pre ++ "_" ++ Nat.repr i ∧ idPrefixOk nd pre) ∧
    (sampleCompiled.program.graph.nodes.map (fun nd => nd.operator_id)).Nodup :=
  C6_operator_ids samplePlanner sampleScanSinkGraph sampleCompiled rfl

/-! ## Determinism and insensitivity to the HashMap representation (C8) -/

/-- Two `node_mapping` representations with the same lookup behaviour (for
example, a HashMap's buckets in different internal arrangements). -/
def MappingEquiv (m1 m2 : List (Nat × Nat)) : Prop :=
  ∀ k, mapGet m1 k = mapGet m2 k

/-- Walk states with identical graphs and lookup-equivalent mappings. -/
def StateEquiv (s1 s2 : PlanState) : Prop :=
  s1.program_graph = s2.program_graph ∧ MappingEquiv s1.node_mapping s2.node_mapping

/-- Relating translation-arm outcomes across equivalent states. -/
def StepEquiv : Except PlanError (PlanState × Nat) → Except PlanError (PlanState × Nat) → Prop
  | .ok (s1, n1), .ok (s2, n2) => StateEquiv s1 s2 ∧ n1 = n2
  | .error e1, .error e2 => e1 = e2
  | _, _ => False

/-- Relating walk outcomes across equivalent states. -/
def ResultEquiv : Except PlanError PlanState → Except PlanError PlanState → Prop
  | .ok s1, .ok s2 => StateEquiv s1 s2
  | .error e1, .error e2 => e1 = e2
  | _, _ => False

/-- Inserting the same binding preserves lookup equivalence. -/
theorem MappingEquiv.insert {m1 m2 : List (Nat × Nat)} (h : MappingEquiv m1 m2)
    (k v : Nat) : MappingEquiv (mapInsert m1 k v) (mapInsert m2 k v) := by
  intro k'
  rw [mapGet_insert, mapGet_insert, h k']

/-- The scan arm depends on the mapping only through the final insert. -/
theorem processTableScan_congr (p : Planner) (idx : Nat) (lp : DFLogicalPlan)
    (s1 s2 : PlanState) (h : StateEquiv s1 s2) :
    StepEquiv (processTableScan p s1 idx lp) (processTableScan p s2 idx lp) := by
  obtain ⟨g1, m1⟩ := s1
  obtain ⟨g2, m2⟩ := s2
  obtain ⟨hg, hm⟩ := h
  dsimp only at hg
  subst hg
  unfold processTableScan
  rcases lp with ⟨tn, ps, proj⟩ | ⟨inp, ge, ae, s⟩ | ⟨tag, s⟩ <;> dsimp only
  case _ =>
    rcases p.get_table tn with _ | tbl <;> dsimp only
    · exact rfl
    · rcases tbl with ⟨cn⟩ | ⟨tag⟩ <;> dsimp only
      · rcases cn.sql_source with e | ss <;>
          dsimp only [bind, Except.bind, liftAnyhow, ProgramGraph.add_node,
            ProgramGraph.add_edge, ProgramGraph.node_count]
        · exact rfl
        · exact ⟨⟨rfl, hm.insert idx _⟩, rfl⟩
      · exact rfl
  all_goals exact rfl

/-- The value arm depends on the mapping only through the final insert. -/
theorem processValueCalculation_congr (p : Planner) (idx : Nat) (lp : DFLogicalPlan)
    (s1 s2 : PlanState) (h : StateEquiv s1 s2) :
    StepEquiv (processValueCalculation p s1 idx lp) (processValueCalculation p s2 idx lp) := by
  obtain ⟨g1, m1⟩ := s1
  obtain ⟨g2, m2⟩ := s2
  obtain ⟨hg, hm⟩ := h
  dsimp only at hg
  subst hg
  unfold processValueCalculation
  rcases p.create_physical_plan lp with e | plan <;>
    dsimp only [bind, Except.bind, pure, Except.pure, ProgramGraph.add_node,
      ProgramGraph.node_count]
  · exact rfl
  · exact ⟨⟨rfl, hm.insert idx _⟩, rfl⟩

/-- The key arm depends on the mapping only through the final insert. -/
theorem processKeyCalculation_congr (p : Planner) (idx : Nat) (lp : DFLogicalPlan)
    (kc : List Nat) (s1 s2 : PlanState) (h : StateEquiv s1 s2) :
    StepEquiv (processKeyCalculation p s1 idx lp kc)
      (processKeyCalculation p s2 idx lp kc) := by
  obtain ⟨g1, m1⟩ := s1
  obtain ⟨g2, m2⟩ := s2
  obtain ⟨hg, hm⟩ := h
  dsimp only at hg
  subst hg
  unfold processKeyCalculation
  rcases p.create_physical_plan lp with e | plan <;>
    dsimp only [bind, Except.bind, pure, Except.pure, ProgramGraph.add_node,
      ProgramGraph.node_count]
  · exact rfl
  · exact ⟨⟨rfl, hm.insert idx _⟩, rfl⟩

/-- The aggregate arm depends on the mapping only through the final
insert. -/
theorem processAggregateCalculation_congr (p : Planner) (idx : Nat)
    (agg : AggregateCalculation) (s1 s2 : PlanState) (h : StateEquiv s1 s2) :
    StepEquiv (processAggregateCalculation p s1 idx agg)
      (processAggregateCalculation p s2 idx agg) := by
  obtain ⟨g1, m1⟩ := s1
  obtain ⟨g2, m2⟩ := s2
  obtain ⟨hg, hm⟩ := h
  dsimp only at hg
  subst hg
  unfold processAggregateCalculation
  rcases agg.agg_input with ⟨tn, ps, proj⟩ | ⟨inp, ge, ae, s⟩ | ⟨tag, s⟩ <;> dsimp only
  case _ =>
    rcases agg.window with ⟨w⟩ | ⟨w, s⟩ | _ | ⟨g⟩ <;>
      dsimp only [bind, Except.bind, pure, Except.pure]
    case _ =>
      rcases p.tumbling_window_config agg with e | ln0 <;>
        dsimp only [bind, Except.bind, pure, Except.pure, ProgramGraph.add_node,
          ProgramGraph.node_count]
      · exact rfl
      · exact ⟨⟨rfl, hm.insert idx _⟩, rfl⟩
    all_goals exact rfl
  all_goals exact rfl

/-- The sink arm depends on the mapping only through the final insert. -/
theorem processSink_congr (idx : Nat) (cop : ConnectorOp)
    (s1 s2 : PlanState) (h : StateEquiv s1 s2) :
    StepEquiv (processSink s1 idx cop) (processSink s2 idx cop) := by
  obtain ⟨g1, m1⟩ := s1
  obtain ⟨g2, m2⟩ := s2
  obtain ⟨hg, hm⟩ := h
  dsimp only at hg
  subst hg
  unfold processSink
  dsimp only [ProgramGraph.add_node, ProgramGraph.node_count]
  exact ⟨⟨rfl, hm.insert idx _⟩, rfl⟩

/-- One rewired edge respects state equivalence. -/
theorem addEdgeStep_congr (nn : Nat) (e : Nat × Nat × DataFusionEdge)
    (s1 s2 : PlanState) (h : StateEquiv s1 s2) :
    ResultEquiv (addEdgeStep nn s1 e) (addEdgeStep nn s2 e) := by
  unfold addEdgeStep
  rw [h.2 e.1]
  rcases mapGet s2.node_mapping e.1 with _ | src <;> dsimp only
  · exact rfl
  · exact ⟨by rw [ProgramGraph.add_edge, ProgramGraph.add_edge, h.1], h.2⟩

/-- The whole rewiring fold respects state equivalence. -/
theorem edgesFold_congr (nn : Nat) (l : List (Nat × Nat × DataFusionEdge)) :
    ∀ s1 s2, StateEquiv s1 s2 →
      ResultEquiv (l.foldlM (addEdgeStep nn) s1) (l.foldlM (addEdgeStep nn) s2) := by
  induction l with
  | nil =>
    intro s1 s2 h
    rw [List.foldlM_nil, List.foldlM_nil]
    exact h
  | cons e l ih =>
    intro s1 s2 h
    rw [List.foldlM_cons, List.foldlM_cons]
    have hstep := addEdgeStep_congr nn e s1 s2 h
    rcases h1 : addEdgeStep nn s1 e with e1 | s1' <;>
      rcases h2 : addEdgeStep nn s2 e with e2 | s2' <;>
      rw [h1, h2] at hstep <;> simp only [bind, Except.bind]
    · have he : e1 = e2 := hstep
      subst he
      exact rfl
    · exact False.elim hstep
    · exact False.elim hstep
    · exact ih s1' s2' hstep

/-- A walk iteration respects state equivalence: the translated output does
not depend on the mapping's internal arrangement. -/
theorem processNode_congr (p : Planner) (rewriter : QueryToGraphVisitor) (idx : Nat)
    (s1 s2 : PlanState) (h : StateEquiv s1 s2) :
    ResultEquiv (processNode p rewriter s1 idx) (processNode p rewriter s2 idx) := by
  unfold processNode
  simp only [bind, Except.bind, pure, Except.pure]
  rcases rewriter.nodes[idx]? with _ | ext <;> dsimp only
  · exact rfl
  rcases ext with ⟨lp⟩ | ⟨lp⟩ | ⟨lp, kc⟩ | ⟨agg⟩ | ⟨nm, cop⟩ <;> dsimp only
  · have harm := processTableScan_congr p idx lp s1 s2 h
    rcases h1 : processTableScan p s1 idx lp with e1 | ⟨s1a, n1⟩ <;>
      rcases h2 : processTableScan p s2 idx lp with e2 | ⟨s2a, n2⟩ <;>
      rw [h1, h2] at harm <;> dsimp only
    · have he : e1 = e2 := harm
      subst he
      exact rfl
    · exact False.elim harm
    · exact False.elim harm
    · obtain ⟨hse, hnn⟩ := (harm : StateEquiv s1a s2a ∧ n1 = n2)
      subst hnn
      unfold addIncomingEdges
      exact edgesFold_congr n1 _ s1a s2a hse
  · have harm := processValueCalculation_congr p idx lp s1 s2 h
    rcases h1 : processValueCalculation p s1 idx lp with e1 | ⟨s1a, n1⟩ <;>
      rcases h2 : processValueCalculation p s2 idx lp with e2 | ⟨s2a, n2⟩ <;>
      rw [h1, h2] at harm <;> dsimp only
    · have he : e1 = e2 := harm
      subst he
      exact rfl
    · exact False.elim harm
    · exact False.elim harm
    · obtain ⟨hse, hnn⟩ := (harm : StateEquiv s1a s2a ∧ n1 = n2)
      subst hnn
      unfold addIncomingEdges
      exact edgesFold_congr n1 _ s1a s2a hse
  · have harm := processKeyCalculation_congr p idx lp kc s1 s2 h
    rcases h1 : processKeyCalculation p s1 idx lp kc with e1 | ⟨s1a, n1⟩ <;>
      rcases h2 : processKeyCalculation p s2 idx lp kc with e2 | ⟨s2a, n2⟩ <;>
      rw [h1, h2] at harm <;> dsimp only
    · have he : e1 = e2 := harm
      subst he
      exact rfl
    · exact False.elim harm
    · exact False.elim harm
    · obtain ⟨hse, hnn⟩ := (harm : StateEquiv s1a s2a ∧ n1 = n2)
      subst hnn
      unfold addIncomingEdges
      exact edgesFold_congr n1 _ s1a s2a hse
  · have harm := processAggregateCalculation_congr p idx agg s1 s2 h
    rcases h1 : processAggregateCalculation p s1 idx agg with e1 | ⟨s1a, n1⟩ <;>
      rcases h2 : processAggregateCalculation p s2 idx agg with e2 | ⟨s2a, n2⟩ <;>
      rw [h1, h2] at harm <;> dsimp only
    · have he : e1 = e2 := harm
      subst he
      exact rfl
    · exact False.elim harm
    · exact False.elim harm
    · obtain ⟨hse, hnn⟩ := (harm : StateEquiv s1a s2a ∧ n1 = n2)
      subst hnn
      unfold addIncomingEdges
      exact edgesFold_congr n1 _ s1a s2a hse
  · have harm := processSink_congr idx cop s1 s2 h
    rcases h1 : processSink s1 idx cop with e1 | ⟨s1a, n1⟩ <;>
      rcases h2 : processSink s2 idx cop with e2 | ⟨s2a, n2⟩ <;>
      rw [h1, h2] at harm <;> dsimp only
    · have he : e1 = e2 := harm
      subst he
      exact rfl
    · exact False.elim harm
    · exact False.elim harm
    · obtain ⟨hse, hnn⟩ := (harm : StateEquiv s1a s2a ∧ n1 = n2)
      subst hnn
      unfold addIncomingEdges
      exact edgesFold_congr n1 _ s1a s2a hse

/-- The whole topological walk respects state equivalence. -/
theorem foldTopo_congr (p : Planner) (rewriter : QueryToGraphVisitor) (l : List Nat) :
    ∀ s1 s2, StateEquiv s1 s2 →
      ResultEquiv (l.foldlM (processNode p rewriter) s1)
        (l.foldlM (processNode p rewriter) s2) := by
  induction l with
  | nil =>
    intro s1 s2 h
    rw [List.foldlM_nil, List.foldlM_nil]
    exact h
  | cons i l ih =>
    intro s1 s2 h
    rw [List.foldlM_cons, List.foldlM_cons]
    have hstep := processNode_congr p rewriter i s1 s2 h
    rcases h1 : processNode p rewriter s1 i with e1 | s1' <;>
      rcases h2 : processNode p rewriter s2 i with e2 | s2' <;>
      rw [h1, h2] at hstep <;> simp only [bind, Except.bind]
    · have he : e1 = e2 := hstep
      subst he
      exact rfl
    · exact False.elim hstep
    · exact False.elim hstep
    · exact ih s1' s2' hstep

/-- **C8**: planning is deterministic. The walk is a pure function of the
rewriter graph, the catalog and the sub-planner behaviour, and its output
is insensitive to the internal arrangement of the `node_mapping` HashMap:
lookup-equivalent mapping states (with identical graphs) produce
byte-identical compiled outputs, and in particular two invocations on the
same input are equal. -/
theorem C8_deterministic_planning (p : Planner) (rewriter : QueryToGraphVisitor) :
    (∀ init1 init2, StateEquiv init1 init2 →
      p.get_arrow_programFrom rewriter init1 = p.get_arrow_programFrom rewriter init2) ∧
    p.get_arrow_program rewriter = p.get_arrow_program rewriter := by
  constructor
  · intro init1 init2 h
    unfold Planner.get_arrow_programFrom
    simp only [bind, Except.bind, pure, Except.pure]
    have hres := foldTopo_congr p rewriter rewriter.topo_order init1 init2 h
    rcases h1 : rewriter.topo_order.foldlM (processNode p rewriter) init1 with e1 | s1 <;>
      rcases h2 : rewriter.topo_order.foldlM (processNode p rewriter) init2 with e2 | s2 <;>
      rw [h1, h2] at hres
    · have he : e1 = e2 := hres
      subst he
      rfl
    · exact False.elim hres
    · exact False.elim hres
    · have hse : StateEquiv s1 s2 := hres
      dsimp only
      rw [hse.1]
  · rfl

/-- Witness for C8: two lookup-equivalent mapping representations (one with
a shadowed duplicate entry) yield identical compiled outputs. -/
theorem C8_deterministic_planning_witness :
    samplePlanner.get_arrow_programFrom sampleScanSinkGraph
      { program_graph := { nodes := [], edges := [] }, node_mapping := [(0, 5)] } =
    samplePlanner.get_arrow_programFrom sampleScanSinkGraph
      { program_graph := { nodes := [], edges := [] },
        node_mapping := [(0, 5), (0, 7)] } :=
  (C8_deterministic_planning samplePlanner sampleScanSinkGraph).1
    { program_graph := { nodes := [], edges := [] }, node_mapping := [(0, 5)] }
    { program_graph := { nodes := [], edges := [] }, node_mapping := [(0, 5), (0, 7)] }
    ⟨rfl, by
      intro k
      unfold mapGet
      rw [List.find?, List.find?, List.find?]
      by_cases hk : ((0 : Nat) == k) = true <;> simp [hk]⟩
